import Mathlib

/-!
# PodAgent-OS : pipeline state machine and edit-decision-timeline engine

A shallow embedding, in Lean 4, of the core of the PodAgent-OS repository:

* the edit-proposal aggregator's auto-cut budget capping step
  (`src/podagent/editing/module.py`, `EditingModule.run`, lines 104-122);
* the timeline builder (`src/podagent/editing/edl_builder.py`, `build_edl`);
* chapter-time remapping (`src/podagent/editing/chapters.py`,
  `_map_to_edited_timeline`);
* the gate controller (`src/podagent/pipeline/gate.py`, `approve_gate`,
  `reject_gate`);
* the pipeline orchestrator (`src/podagent/pipeline/orchestrator.py`,
  `run_pipeline`, `_next_stage`);
* the region mapper (`src/podagent/mixing/timeline.py`, `build_timeline`;
  `src/podagent/mixing/extract.py`, `extract_regions`;
  `src/podagent/models/alignment.py`, `AlignmentMap.get_track_offset`).

Modelling conventions:

* Python `float` values (all times and durations) are modelled as exact
  rationals (`Rat`); the arithmetic of the source is carried out verbatim on
  `Rat`.
* Python `None` becomes `Option.none`; `str | None` becomes `Option String`.
* Python's `sorted`/`list.sort` are stable sorts; they are modelled with
  Mathlib's `List.insertionSort`, which is stable for the `≤`-shaped
  relations used here, applied to the same keys as in the source.
* In-place mutation of `Edit` objects reached through two lists (the capping
  loop of `EditingModule.run` iterates over a sorted copy while the original
  list order is preserved) is modelled by tagging each edit with its position
  (`List.enum`) and rebuilding the original list from the set of demoted
  positions.
* File persistence (`write_yaml` / `_save_manifest`) is modelled by an
  explicit event trace; a raised Python exception is modelled by an
  `Except`-style result carrying the exception's type name and message.
-/

namespace PodAgent

/-! ## Data model: `models/edl.py` and `models/transcript.py` -/

/-- Source `Edit` (models/edl.py).  A single edit decision. -/
structure Edit where
  id : String := ""
  type : String
  source_track : String := ""
  source_start : Rat
  source_end : Rat
  record_start : Option Rat := none
  record_end : Option Rat := none
  transition : String := "cut"
  speaker : Option String := none
  description : String := ""
  reason : Option String := none
  confidence : Option Rat := none
  rationale : Option String := none
  segments : List String := []
  auto_applied : Bool := false
  review_flag : Option String := none
deriving DecidableEq

/-- Source `Edit.duration` (models/edl.py): `source_end - source_start`. -/
def Edit.duration (e : Edit) : Rat := e.source_end - e.source_start

/-- Source `Transition` (models/edl.py). -/
structure Transition where
  between : List String
  type : String := "crossfade"
  duration_ms : Int := 50
deriving DecidableEq

/-- Source `EDLSidecar` (models/edl.py). -/
structure EDLSidecar where
  version : String := "1.0"
  episode_id : String := ""
  original_duration_seconds : Rat := 0
  edited_duration_seconds : Rat := 0
  time_removed_seconds : Rat := 0
  time_removed_percent : Rat := 0
  edl_frame_rate : Int := 30
  edl_mode : String := "NON-DROP FRAME"
  edits : List Edit := []
  transitions : List Transition := []
deriving DecidableEq

/-- Source `EDLSidecar.keep_edits` (models/edl.py): the edits with `type == "keep"`. -/
def EDLSidecar.keep_edits (s : EDLSidecar) : List Edit :=
  s.edits.filter (fun e => e.type == "keep")

/-- Source `EDLSidecar.cut_edits` (models/edl.py): the edits with `type == "cut"`. -/
def EDLSidecar.cut_edits (s : EDLSidecar) : List Edit :=
  s.edits.filter (fun e => e.type == "cut")

/-- Source `Segment` (models/transcript.py).  The Python field `end` is called
`stop` here because `end` is a Lean keyword. -/
structure Segment where
  id : String
  speaker : String
  start : Rat
  stop : Rat
  text : String := ""
deriving DecidableEq

/-- Source `Segment.duration` (models/transcript.py): `end - start`. -/
def Segment.duration (s : Segment) : Rat := s.stop - s.start

/-! ## Edit proposal aggregator: the auto-cut capping step of
`EditingModule.run` (editing/module.py lines 104-122). -/

/-- The sort key `e.confidence or 0` used at line 116 of editing/module.py
(`key=lambda e: -(e.confidence or 0)`; `None` is falsy, so `or 0` maps it
to `0`). -/
def confKey (e : Edit) : Rat := (e.confidence).getD 0

/-- Source `sum(e.duration for e in cuts if e.auto_applied)` (line 106). -/
def autoSum (cuts : List Edit) : Rat :=
  ((cuts.filter (fun e => e.auto_applied)).map Edit.duration).sum

/-- Source `sorted(all_cuts, key=lambda e: -(e.confidence or 0))` applied to
position-tagged edits: a stable sort in descending order of confidence. -/
def sortByConfDesc (l : List (Nat × Edit)) : List (Nat × Edit) :=
  List.insertionSort (fun a b => confKey b.2 ≤ confKey a.2) l

/-- The body of the capping loop (lines 116-122): walk the sorted edits,
keep an auto-applied edit when it still fits in the budget (advancing
`used`), otherwise record its position for demotion. -/
def capWalk (budget : Rat) : Rat → List (Nat × Edit) → List Nat
  | _, [] => []
  | used, (i, e) :: rest =>
    if e.auto_applied then
      if used + e.duration ≤ budget then capWalk budget (used + e.duration) rest
      else i :: capWalk budget used rest
    else capWalk budget used rest

/-- The `used` accumulator after the capping loop has walked a list. -/
def usedAfter (budget : Rat) : Rat → List (Nat × Edit) → Rat
  | used, [] => used
  | used, (_, e) :: rest =>
    if e.auto_applied then
      if used + e.duration ≤ budget then usedAfter budget (used + e.duration) rest
      else usedAfter budget used rest
    else usedAfter budget used rest

/-- The in-place demotion of lines 121-122: `edit.auto_applied = False;
edit.review_flag = "Auto-cut budget exceeded (>50% of episode)"`. -/
def demoteEdit (e : Edit) : Edit :=
  { e with auto_applied := false,
           review_flag := some "Auto-cut budget exceeded (>50% of episode)" }

/-- Lines 104-122 of editing/module.py: if the auto-applied cut time exceeds
50% of the episode, walk the edits in descending order of confidence and
demote every auto-applied edit that does not fit in the
`total_duration * 0.5` budget. -/
def capAutoCuts (total_duration : Rat) (all_cuts : List Edit) : List Edit :=
  let auto_cut_time := autoSum all_cuts
  if 0 < total_duration ∧ 1/2 < auto_cut_time / total_duration then
    let budget := total_duration * (1/2)
    let demoted := capWalk budget 0 (sortByConfDesc all_cuts.enum)
    all_cuts.enum.map (fun p => if p.1 ∈ demoted then demoteEdit p.2 else p.2)
  else all_cuts

/-! ## Chapter-time remapping: `_map_to_edited_timeline`
(editing/chapters.py lines 43-60). -/

/-- The loop of `_map_to_edited_timeline`, with the running `offset`. -/
def mapToEditedGo (original_time : Rat) : Rat → List Edit → Option Rat
  | offset, [] => some (original_time - offset)
  | offset, e :: rest =>
    if e.source_end ≤ original_time then
      mapToEditedGo original_time (offset + e.duration) rest
    else if e.source_start < original_time ∧ original_time < e.source_end then
      none
    else
      mapToEditedGo original_time offset rest

/-- Source `_map_to_edited_timeline(original_time, cut_edits)`
(editing/chapters.py). -/
def mapToEditedTimeline (original_time : Rat) (cut_edits : List Edit) : Option Rat :=
  mapToEditedGo original_time 0 cut_edits

/-- A timestamp falling strictly inside a cut region
(`edit.source_start < original_time < edit.source_end`). -/
def insideCut (t : Rat) (e : Edit) : Prop :=
  e.source_start < t ∧ t < e.source_end

instance (t : Rat) (e : Edit) : Decidable (insideCut t e) := by
  unfold insideCut; infer_instance

/-! ## Timeline builder: `build_edl` (editing/edl_builder.py lines 13-124). -/

/-- Python's `round` half-to-even, as used by `round(x, 1)` and by the
`"{:.0f}"` format (the source applies these to floats; they are modelled
exactly on rationals). -/
def roundHalfEven (x : Rat) : Int :=
  let n := x.floor
  let frac := x - n
  if frac < 1/2 then n
  else if 1/2 < frac then n + 1
  else if n % 2 = 0 then n else n + 1

/-- Source `round(x, 1)` (used for `time_removed_percent` at line 112). -/
def round1 (x : Rat) : Rat := ((roundHalfEven (x * 10) : Int) : Rat) / 10

/-- The `f"keep-{keep_counter:03d}"` identifiers (lines 51 and 77). -/
def pad3 (n : Nat) : String :=
  if n < 10 then "00" ++ toString n
  else if n < 100 then "0" ++ toString n
  else toString n

/-- Keep-edit identifier `"keep-" + zero-padded counter`. -/
def keepId (n : Nat) : String := "keep-" ++ pad3 n

/-- Source `_summarize_region` (edl_builder.py lines 218-224). -/
def summarizeRegion (segs : List Segment) : String :=
  match segs with
  | [] => ""
  | s0 :: _ =>
    let speakers :=
      List.insertionSort (fun a b : String => ¬ b < a) (segs.map Segment.speaker).dedup
    let duration :=
      match segs.getLast? with
      | some slast => if 1 < segs.length then slast.stop - s0.start else s0.duration
      | none => s0.duration
    String.intercalate ", " speakers ++ " (" ++ toString (roundHalfEven duration) ++ "s)"

/-- The mutable state of the keep-building loop of `build_edl`
(lines 32-35): accumulated keep edits, the keep counter, the source-time
cursor `current_pos` and the output-time cursor `record_pos`. -/
structure BuildState where
  keeps : List Edit
  keep_counter : Nat
  current_pos : Rat
  record_pos : Rat

/-- One iteration of the `for cut in cuts` loop (lines 37-65): emit a keep
edit for `[current_pos, cut.source_start)` when that region is non-empty,
then advance `current_pos` to `cut.source_end`. -/
def buildStep (segments : List Segment) (st : BuildState) (cut : Edit) : BuildState :=
  if st.current_pos < cut.source_start then
    let duration := cut.source_start - st.current_pos
    let kc := st.keep_counter + 1
    let region_segments :=
      segments.filter (fun s =>
        decide (st.current_pos ≤ s.start) && decide (s.stop ≤ cut.source_start))
    let speaker := ((region_segments.head?).map Segment.speaker).getD ""
    let keep : Edit :=
      { id := keepId kc
        type := "keep"
        source_track := ""
        source_start := st.current_pos
        source_end := cut.source_start
        record_start := some st.record_pos
        record_end := some (st.record_pos + duration)
        transition := if kc = 1 then "cut" else "crossfade"
        speaker := some speaker
        description := summarizeRegion region_segments
        segments := region_segments.map Segment.id }
    { keeps := st.keeps ++ [keep]
      keep_counter := kc
      current_pos := cut.source_end
      record_pos := st.record_pos + duration }
  else
    { st with current_pos := cut.source_end }

/-- The final keep region after the last cut (lines 68-89).  Note that this
keep edit's `transition` is the literal `"crossfade"` (line 84), with no
`keep_counter == 1` test. -/
def buildTail (segments : List Segment) (total_duration : Rat) (st : BuildState) :
    BuildState :=
  if st.current_pos < total_duration then
    let duration := total_duration - st.current_pos
    let kc := st.keep_counter + 1
    let region_segments := segments.filter (fun s => decide (st.current_pos ≤ s.start))
    let speaker := ((region_segments.head?).map Segment.speaker).getD ""
    let keep : Edit :=
      { id := keepId kc
        type := "keep"
        source_track := ""
        source_start := st.current_pos
        source_end := total_duration
        record_start := some st.record_pos
        record_end := some (st.record_pos + duration)
        transition := "crossfade"
        speaker := some speaker
        description := summarizeRegion region_segments
        segments := region_segments.map Segment.id }
    { keeps := st.keeps ++ [keep]
      keep_counter := kc
      current_pos := st.current_pos
      record_pos := st.record_pos + duration }
  else
    st

/-- One `Transition` record between every pair of record-adjacent keep
edits (lines 92-98). -/
def buildTransitions (crossfade_duration_ms : Int) : List Edit → List Transition
  | a :: b :: rest =>
    { between := [a.id, b.id], type := "crossfade", duration_ms := crossfade_duration_ms }
      :: buildTransitions crossfade_duration_ms (b :: rest)
  | _ => []

/-- Source `total_duration = segments[-1].end if segments else 0` (line 26). -/
def totalDurationOf (segments : List Segment) : Rat :=
  match segments.getLast? with
  | some s => s.stop
  | none => 0

/-- Source `build_edl(segments, cut_edits, episode_id=..., frame_rate=...,
crossfade_duration_ms=...)` (edl_builder.py lines 13-124). -/
def buildEdl (segments : List Segment) (cut_edits : List Edit) (episode_id : String)
    (frame_rate : Int) (crossfade_duration_ms : Int) : EDLSidecar :=
  let total_duration := totalDurationOf segments
  let cuts := List.insertionSort (fun a b : Edit => a.source_start ≤ b.source_start) cut_edits
  let st := cuts.foldl (buildStep segments) ⟨[], 0, 0, 0⟩
  let fin := buildTail segments total_duration st
  let keep_edits := fin.keeps
  let transitions := buildTransitions crossfade_duration_ms keep_edits
  let all_edits := keep_edits ++ cuts
  let edited_duration := fin.record_pos
  let time_removed := total_duration - edited_duration
  let time_removed_pct :=
    if 0 < total_duration then time_removed / total_duration * 100 else 0
  { episode_id := episode_id
    original_duration_seconds := total_duration
    edited_duration_seconds := edited_duration
    time_removed_seconds := time_removed
    time_removed_percent := round1 time_removed_pct
    edl_frame_rate := frame_rate
    edits := all_edits
    transitions := transitions }

/-! ## Pipeline state machine: `models/manifest.py`, `pipeline/gate.py` and
`pipeline/orchestrator.py`.

Only the pipeline-relevant part of the `Manifest` is modelled
(`pipeline.current_stage` and the per-stage `StageStatus` records); the
project metadata, file-path table and per-module config play no role in the
verified operations.  Timestamps (`datetime.now`) are modelled by a `Nat`
clock threaded through the computation; each `now()` call yields the current
clock value. -/

/-- The four pipeline stages. -/
inductive Stage
  | ingestion
  | editing
  | mixing
  | mastering
deriving DecidableEq

/-- The stage's name string. -/
def Stage.name : Stage → String
  | .ingestion => "ingestion"
  | .editing => "editing"
  | .mixing => "mixing"
  | .mastering => "mastering"

/-- Source `STAGE_ORDER = ["ingestion", "editing", "mixing", "mastering"]`
(orchestrator.py line 14; the same literal list is iterated by
`approve_gate` and `reject_gate` in gate.py). -/
def STAGE_ORDER : List Stage := [.ingestion, .editing, .mixing, .mastering]

/-- The position of a stage in `STAGE_ORDER` (`STAGE_ORDER.index`). -/
def stageIdx : Stage → Nat
  | .ingestion => 0
  | .editing => 1
  | .mixing => 2
  | .mastering => 3

/-- Source `_next_stage` (orchestrator.py lines 164-169): the next stage name, or
`"complete"` after the last stage. -/
def nextStageName : Stage → String
  | .ingestion => "editing"
  | .editing => "mixing"
  | .mixing => "mastering"
  | .mastering => "complete"

/-- Source `StageStatus.status` values (models/manifest.py line 79). -/
inductive StageState
  | pending
  | in_progress
  | completed
  | failed
deriving DecidableEq

/-- Source `StageError` (models/manifest.py lines 68-73). -/
structure StageError where
  type : String
  message : String
  step : Option String := none
deriving DecidableEq

/-- Source `StageStatus` (models/manifest.py lines 76-87). -/
structure StageStatus where
  status : StageState := .pending
  started_at : Option Nat := none
  completed_at : Option Nat := none
  gate_approved : Option Bool := none
  gate_approved_at : Option Nat := none
  gate_notes : Option String := none
  error : Option StageError := none
  last_completed_step : Option String := none
deriving DecidableEq

/-- The pipeline-relevant part of `Manifest` (models/manifest.py):
`pipeline.current_stage` and the stage-name → `StageStatus` mapping. -/
structure Manifest where
  current_stage : String := "ingestion"
  stages : Stage → StageStatus

/-- Replace one stage's status record (in-place mutation of
`manifest.get_stage(name)` in the source). -/
def Manifest.setStage (m : Manifest) (s : Stage) (st : StageStatus) : Manifest :=
  { m with stages := fun s' => if s' = s then st else m.stages s' }

/-- Set `manifest.pipeline.current_stage`. -/
def Manifest.setCurrent (m : Manifest) (c : String) : Manifest :=
  { m with current_stage := c }

/-! ## Gate controller: `approve_gate` and `reject_gate`
(pipeline/gate.py lines 237-281).

Both functions read the manifest from disk, scan `STAGE_ORDER` for the
first stage with `status == "completed"` and `gate_approved is None`,
mutate it, write the manifest back and return; when no stage qualifies
they raise (`RuntimeError("No gate pending ...")`) without writing, so the
persisted manifest is unchanged.  The raise is modelled by
`Except.error .noGatePending`; a successful call returns the manifest that
is written back. -/

/-- The error raised when approve/reject finds nothing awaiting review. -/
inductive GateError
  | noGatePending
deriving DecidableEq

/-- Source `stage.status == "completed" and stage.gate_approved is None`
(gate.py lines 244 and 268). -/
def gateQualifies (m : Manifest) (s : Stage) : Bool :=
  decide ((m.stages s).status = .completed) && decide ((m.stages s).gate_approved = none)

/-- The first stage in `STAGE_ORDER` with a pending gate (the shared loop
of `approve_gate` / `reject_gate`, also `show_gate_status`). -/
def findPendingGate (m : Manifest) : Option Stage :=
  STAGE_ORDER.find? (gateQualifies m)

/-- Source `if notes: stage.gate_notes = notes` (gate.py lines 247-248 and
273-274; an empty string is falsy in Python and leaves the field alone). -/
def applyNotes (old : Option String) (notes : Option String) : Option String :=
  match notes with
  | some n => if n = "" then old else some n
  | none => old

/-- Source `approve_gate(manifest_path, notes=...)` (gate.py lines 237-258),
with `t` the value of `datetime.now(timezone.utc)`. -/
def approveGate (m : Manifest) (notes : Option String) (t : Nat) :
    Except GateError Manifest :=
  match findPendingGate m with
  | some s =>
    let st := m.stages s
    let st' := { st with gate_approved := some true
                         gate_approved_at := some t
                         gate_notes := applyNotes st.gate_notes notes }
    .ok ((m.setStage s st').setCurrent (nextStageName s))
  | none => .error .noGatePending

/-- Source `reject_gate(manifest_path, notes=...)` (gate.py lines 261-281). -/
def rejectGate (m : Manifest) (notes : Option String) :
    Except GateError Manifest :=
  match findPendingGate m with
  | some s =>
    let st := m.stages s
    let st' := { st with status := .pending
                         started_at := none
                         completed_at := none
                         gate_approved := none
                         gate_notes := applyNotes st.gate_notes notes }
    .ok ((m.setStage s st').setCurrent s.name)
  | none => .error .noGatePending

/-! ## Pipeline orchestrator: `run_pipeline` (orchestrator.py lines
55-161).

The external collaborators are a parameter `StageEnv`:
`validate` is the stage module's `validate_inputs`, `runStage` is the stage
module's `run` — it receives the manifest, may mutate it (the mutated
manifest is returned even when the module raises, as in Python, where
mutations made before the exception stick) and optionally raises an
exception carrying a type name and message — and `presentGate` is the
interactive `present_gate` decision.  Every `_save_manifest` call is
recorded in an event trace, as is the moment a stage is marked
`in_progress`. -/

/-- A raised Python exception: its type name and `str(e)` message. -/
structure PyError where
  type : String
  message : String
deriving DecidableEq

/-- The external stage modules and the human gate decision. -/
structure StageEnv where
  validate : Stage → Manifest → List String
  runStage : Stage → Manifest → Manifest × Option PyError
  presentGate : Stage → Manifest → Bool

/-- Observable events of one `run_pipeline` invocation: each persisted
manifest (`_save_manifest`) and each transition of a stage to
`in_progress`, with the manifest at that moment. -/
inductive Event
  | persist (m : Manifest)
  | markInProgress (s : Stage) (m : Manifest)

/-- How one `run_pipeline` invocation ends: the `STAGE_ORDER` loop ran to
completion; it returned early because a gate was declined; it raised
`RuntimeError` for failed input validation; or it re-raised a stage
module's exception. -/
inductive RunResult
  | complete
  | gatePaused (s : Stage)
  | validationFailed (s : Stage) (errors : List String)
  | stageRaised (s : Stage) (e : PyError)
deriving DecidableEq

/-- The outcome of the stage loop: result, final manifest, event trace and
final clock. -/
structure RunOut where
  result : RunResult
  manifest : Manifest
  trace : List Event
  clock : Nat

/-- Orchestrator lines 94-98 and 151-155: approve a gate in place — set
`gate_approved = true`, stamp the approval time, advance `current_stage`
to the next stage. -/
def approveStageManifest (m : Manifest) (s : Stage) (clock : Nat) : Manifest :=
  (m.setStage s { m.stages s with gate_approved := some true
                                  gate_approved_at := some clock
  }).setCurrent (nextStageName s)

/-- Orchestrator lines 118-121: mark the stage `in_progress`, stamp
`started_at`, clear the previous `error`, set `current_stage`. -/
def markInProgressManifest (m : Manifest) (s : Stage) (clock : Nat) : Manifest :=
  (m.setStage s { m.stages s with status := .in_progress
                                  started_at := some clock
                                  error := none }).setCurrent s.name

/-- Orchestrator lines 129-134: mark the stage `failed`, recording the
exception's type name, its message truncated to 500 characters, and the
stage's last diagnostic checkpoint. -/
def failManifest (m2 : Manifest) (s : Stage) (e : PyError) : Manifest :=
  m2.setStage s
    { m2.stages s with
      status := .failed
      error := some { type := e.type
                      message := e.message.take 500
                      step := (m2.stages s).last_completed_step } }

/-- Orchestrator lines 140-141: mark the stage `completed` and stamp
`completed_at`. -/
def completeManifest (m2 : Manifest) (s : Stage) (clock : Nat) : Manifest :=
  m2.setStage s { m2.stages s with status := .completed
                                   completed_at := some clock }

/-- The `for stage_name in STAGE_ORDER[start_idx:]` loop of `run_pipeline`
(orchestrator.py lines 80-159), over the remaining stage list. -/
def runStages (env : StageEnv) : List Stage → Manifest → Nat → RunOut
  | [], m, clock => ⟨.complete, m, [], clock⟩
  | s :: rest, m, clock =>
    if (m.stages s).status = .completed ∧ (m.stages s).gate_approved = some true then
      -- lines 84-86: skip completed + approved stages
      runStages env rest m clock
    else if (m.stages s).status = .completed ∧ (m.stages s).gate_approved = none then
      -- lines 89-104: present the gate for completed but unapproved stages
      if env.presentGate s m then
        let m1 := approveStageManifest m s clock
        let out := runStages env rest m1 (clock + 1)
        { out with trace := Event.persist m1 :: out.trace }
      else
        ⟨.gatePaused s, m, [Event.persist m], clock⟩
    else
      -- lines 107-115: load the module and validate inputs
      if env.validate s m ≠ [] then
        ⟨.validationFailed s (env.validate s m), m, [], clock⟩
      else
        -- lines 118-124: mark in_progress, persist, then run the module
        let m1 := markInProgressManifest m s clock
        match env.runStage s m1 with
        | (m2, some e) =>
          -- lines 126-137: mark failed with the truncated error, persist,
          -- re-raise
          ⟨.stageRaised s e, failManifest m2 s e,
            [Event.markInProgress s m1, Event.persist m1,
             Event.persist (failManifest m2 s e)],
            clock + 1⟩
        | (m2, none) =>
          -- lines 140-142: mark completed, persist
          let m3 := completeManifest m2 s (clock + 1)
          -- lines 148-159: present the gate immediately
          if env.presentGate s m3 then
            let m4 := approveStageManifest m3 s (clock + 2)
            let out := runStages env rest m4 (clock + 3)
            { out with trace :=
                Event.markInProgress s m1 :: Event.persist m1 :: Event.persist m3
                  :: Event.persist m4 :: out.trace }
          else
            ⟨.gatePaused s, m3,
              [Event.markInProgress s m1, Event.persist m1, Event.persist m3,
               Event.persist m3],
              clock + 2⟩

/-- Resolve a `from_stage` argument (`STAGE_ORDER.index`,
orchestrator.py lines 74-77). -/
def stageOfName (n : String) : Option Stage :=
  if n = "ingestion" then some .ingestion
  else if n = "editing" then some .editing
  else if n = "mixing" then some .mixing
  else if n = "mastering" then some .mastering
  else none

/-- Source `run_pipeline(manifest_path, from_stage=...)`: an unknown `from_stage`
raises `ValueError` before any mutation; otherwise the stage loop starts at
`start_idx`. -/
inductive PipelineResult
  | ran (out : RunOut)
  | unknownStage (name : String)

/-- Source `run_pipeline` (orchestrator.py lines 55-161). -/
def runPipeline (env : StageEnv) (m : Manifest) (from_stage : Option String) :
    PipelineResult :=
  match from_stage with
  | none => .ran (runStages env STAGE_ORDER m 0)
  | some nm =>
    match stageOfName nm with
    | none => .unknownStage nm
    | some s => .ran (runStages env (STAGE_ORDER.drop (stageIdx s)) m 0)

/-- The event trace of a `run_pipeline` invocation (empty when the
invocation was rejected for an unknown `from_stage`). -/
def pipelineTrace (env : StageEnv) (m : Manifest) (from_stage : Option String) :
    List Event :=
  match runPipeline env m from_stage with
  | .ran out => out.trace
  | .unknownStage _ => []

/-! ## Region mapper: `build_timeline` (mixing/timeline.py lines 31-65),
`extract_regions` (mixing/extract.py lines 12-57) and
`AlignmentMap.get_track_offset` (models/alignment.py lines 36-40). -/

/-- Source `AlignedTrack` (models/alignment.py; the fields read by the region
mapper). -/
structure AlignedTrack where
  path : String
  offset_ms : Rat := 0
  is_reference : Bool := false
deriving DecidableEq

/-- Source `AlignmentMap` (models/alignment.py; the fields read by the region
mapper). -/
structure AlignmentMap where
  reference_track : String := ""
  tracks : List AlignedTrack := []
deriving DecidableEq

/-- Source `AlignmentMap.get_track_offset` (models/alignment.py lines 36-40):
first matching track's `offset_ms`, else `0.0`. -/
def AlignmentMap.get_track_offset (a : AlignmentMap) (path : String) : Rat :=
  match a.tracks.find? (fun t => t.path == path) with
  | some t => t.offset_ms
  | none => 0

/-- Source `AudioRegion` (mixing/timeline.py lines 13-28). -/
structure AudioRegion where
  edit_id : String
  track_path : String
  source_start : Rat
  source_end : Rat
  record_start : Rat
  record_end : Rat
  speaker : String
  offset_ms : Rat
deriving DecidableEq

/-- Source `AudioRegion.duration`. -/
def AudioRegion.duration (r : AudioRegion) : Rat := r.source_end - r.source_start

/-- Source `track_map.get(speaker, "")`: the speaker → track-path table, modelled
as an association list with unique keys (a Python dict). -/
def lookupTrack (track_map : List (String × String)) (k : String) : Option String :=
  (track_map.find? (fun p => p.1 == k)).map Prod.snd

/-- Source `build_timeline(edl, alignment, track_map)` (mixing/timeline.py lines
31-65): one region per keep edit, then a stable sort by `record_start`. -/
def buildTimeline (edl : EDLSidecar) (alignment : AlignmentMap)
    (track_map : List (String × String)) : List AudioRegion :=
  let regions := edl.keep_edits.map (fun e =>
    let speaker := (e.speaker).getD ""
    let track_path := (lookupTrack track_map speaker).getD ""
    let offset_ms := if track_path ≠ "" then alignment.get_track_offset track_path else 0
    { edit_id := e.id
      track_path := track_path
      source_start := e.source_start
      source_end := e.source_end
      record_start := (e.record_start).getD 0
      record_end := (e.record_end).getD 0
      speaker := speaker
      offset_ms := offset_ms : AudioRegion })
  List.insertionSort (fun a b : AudioRegion => a.record_start ≤ b.record_start) regions

/-- One `extract_region` invocation planned by `extract_regions`: the
source track and the clamped, offset-adjusted start
(`max(source_start + offset_ms/1000, 0.0)`, extract.py lines 41-42). -/
structure ExtractCall where
  track_path : String
  start : Rat
  duration : Rat
deriving DecidableEq

/-- Source `extract_regions(regions, ...)` (mixing/extract.py lines 12-57):
regions with an empty `track_path` are skipped (`continue`, line 31); a
non-empty track that does not exist raises `FileNotFoundError` (modelled by
`Except.error` carrying the path); otherwise the extraction is recorded
under the region's `edit_id`.  The `exists_fn` parameter models
`track_path.exists()`. -/
def extractRegions (exists_fn : String → Bool) :
    List AudioRegion → Except String (List (String × ExtractCall))
  | [] => .ok []
  | r :: rest =>
    if r.track_path = "" then extractRegions exists_fn rest
    else if exists_fn r.track_path = false then .error r.track_path
    else
      match extractRegions exists_fn rest with
      | .ok out =>
        .ok ((r.edit_id,
              { track_path := r.track_path
                start := max (r.source_start + r.offset_ms / 1000) 0
                duration := r.duration : ExtractCall }) :: out)
      | .error p => .error p

/-! ## Theorems -/

/-! ### Chapter-time remapping (claim C8) -/

/-- The loop of `_map_to_edited_timeline`, characterised for any starting
offset: it returns `none` exactly when the timestamp lies strictly inside
some cut, and otherwise subtracts the starting offset plus the durations of
the cuts ending at or before the timestamp. -/
lemma mapToEditedGo_spec (t : Rat) (cuts : List Edit) : ∀ offset : Rat,
    (mapToEditedGo t offset cuts = none ↔ ∃ e ∈ cuts, insideCut t e) ∧
    ((∀ e ∈ cuts, ¬ insideCut t e) →
      mapToEditedGo t offset cuts =
        some (t - (offset +
          ((cuts.filter (fun e => decide (e.source_end ≤ t))).map Edit.duration).sum))) := by
  induction cuts with
  | nil =>
    intro offset
    refine ⟨by simp [mapToEditedGo], fun _ => by simp [mapToEditedGo]⟩
  | cons e rest ih =>
    intro offset
    by_cases h1 : e.source_end ≤ t
    · have hnotin : ¬ insideCut t e := fun hin => absurd h1 (not_le.mpr hin.2)
      constructor
      · simp only [mapToEditedGo, if_pos h1]
        rw [(ih (offset + e.duration)).1]
        simp [hnotin]
      · intro hall
        simp only [mapToEditedGo, if_pos h1]
        rw [(ih (offset + e.duration)).2 (fun e' he' => hall e' (List.mem_cons_of_mem _ he'))]
        have : (List.filter (fun e' => decide (e'.source_end ≤ t)) (e :: rest)) =
            e :: List.filter (fun e' => decide (e'.source_end ≤ t)) rest := by
          simp [List.filter_cons, h1]
        rw [this]
        simp only [List.map_cons, List.sum_cons]
        ring_nf
    · by_cases h2 : insideCut t e
      · have h2' : e.source_start < t ∧ t < e.source_end := h2
        constructor
        · simp only [mapToEditedGo, if_neg h1, if_pos h2']
          simp only [true_iff]
          exact ⟨e, List.mem_cons_self _ _, h2⟩
        · intro hall
          exact absurd h2 (hall e (List.mem_cons_self _ _))
      · have h2' : ¬ (e.source_start < t ∧ t < e.source_end) := h2
        constructor
        · simp only [mapToEditedGo, if_neg h1, if_neg h2']
          rw [(ih offset).1]
          simp [h2]
        · intro hall
          simp only [mapToEditedGo, if_neg h1, if_neg h2']
          rw [(ih offset).2 (fun e' he' => hall e' (List.mem_cons_of_mem _ he'))]
          have : (List.filter (fun e' => decide (e'.source_end ≤ t)) (e :: rest)) =
              List.filter (fun e' => decide (e'.source_end ≤ t)) rest := by
            simp [List.filter_cons, h1]
          rw [this]

/-- C8: for every original timestamp `t` and every cut list, chapter-time
remapping returns `none` exactly when `t` lies strictly inside some cut
(the marker is dropped, never clamped), and otherwise returns `t` minus the
summed durations of exactly those cuts whose `source_end ≤ t`. -/
theorem mapToEditedTimeline_spec (t : Rat) (cuts : List Edit) :
    (mapToEditedTimeline t cuts = none ↔ ∃ e ∈ cuts, insideCut t e) ∧
    ((∀ e ∈ cuts, ¬ insideCut t e) →
      mapToEditedTimeline t cuts =
        some (t -
          ((cuts.filter (fun e => decide (e.source_end ≤ t))).map Edit.duration).sum)) := by
  have h := mapToEditedGo_spec t cuts 0
  unfold mapToEditedTimeline
  simpa using h

/-- A concrete cut `[1, 2]` used by witnesses. -/
def witCut : Edit :=
  { type := "cut", source_start := 1, source_end := 2, reason := some "silence" }

/-- Witness for C8: the timestamp `5` does not lie inside the cut `[1, 2]`
and is remapped to `5 - 1 = 4`. -/
theorem mapToEditedTimeline_spec_witness :
    (∀ e ∈ [witCut], ¬ insideCut 5 e) ∧ mapToEditedTimeline 5 [witCut] = some 4 := by
  refine ⟨by decide, ?_⟩
  have h := (mapToEditedTimeline_spec 5 [witCut]).2 (by decide)
  rw [h]
  norm_num [witCut, Edit.duration, List.filter]

/-! ### The auto-cut budget (claims C1 and C2)

The capping loop of `EditingModule.run` iterates over the edits sorted in
descending order of confidence, keeping each auto-applied edit whose
duration still fits in the budget and demoting the ones that do not.  The
lemmas below relate the list of demoted positions (`capWalk`), the running
total (`usedAfter`) and the auto-applied duration sum of the rebuilt
list. -/

/-- The duration sum of the edits that stay auto-applied, given the list
`D` of demoted positions. -/
def keptSum (D : List Nat) (l : List (Nat × Edit)) : Rat :=
  (l.map (fun p => if p.2.auto_applied ∧ p.1 ∉ D then p.2.duration else 0)).sum

lemma capWalk_subset {budget : Rat} :
    ∀ {l : List (Nat × Edit)} {used : Rat} {i : Nat},
      i ∈ capWalk budget used l → i ∈ l.map Prod.fst := by
  intro l
  induction l with
  | nil => intro used i h; simp [capWalk] at h
  | cons p rest ih =>
    intro used i h
    obtain ⟨j, e⟩ := p
    simp only [capWalk] at h
    split_ifs at h with ha hfit
    · exact List.mem_cons_of_mem _ (ih h)
    · rcases List.mem_cons.mp h with h | h
      · simp [h]
      · exact List.mem_cons_of_mem _ (ih h)
    · exact List.mem_cons_of_mem _ (ih h)

lemma usedAfter_le {budget : Rat} :
    ∀ {l : List (Nat × Edit)} {used : Rat},
      used ≤ budget → usedAfter budget used l ≤ budget := by
  intro l
  induction l with
  | nil => intro used h; simpa [usedAfter] using h
  | cons p rest ih =>
    intro used h
    obtain ⟨j, e⟩ := p
    simp only [usedAfter]
    split_ifs with ha hfit
    · exact ih hfit
    · exact ih h
    · exact ih h

lemma keptSum_cons_not_mem {j : Nat} {D : List Nat} :
    ∀ {l : List (Nat × Edit)}, j ∉ l.map Prod.fst →
      keptSum (j :: D) l = keptSum D l := by
  intro l
  induction l with
  | nil => intro _; rfl
  | cons p rest ih =>
    intro hj
    obtain ⟨k, e⟩ := p
    simp only [List.map_cons, List.mem_cons] at hj
    push_neg at hj
    have hkj : k ≠ j := Ne.symm hj.1
    have hrest := ih hj.2
    simp only [keptSum, List.map_cons, List.sum_cons] at hrest ⊢
    have : (e.auto_applied ∧ k ∉ j :: D) ↔ (e.auto_applied ∧ k ∉ D) := by
      simp [List.mem_cons, hkj]
    rw [if_congr this rfl rfl, hrest]

/-- Key invariant of the capping loop: starting from any `used ≤ budget`,
the durations the loop keeps auto-applied fit in the remaining budget. -/
lemma keptSum_capWalk {budget : Rat} :
    ∀ {l : List (Nat × Edit)} {used : Rat},
      (l.map Prod.fst).Nodup → used ≤ budget →
      used + keptSum (capWalk budget used l) l ≤ budget := by
  intro l
  induction l with
  | nil => intro used _ h; simpa [capWalk, keptSum] using h
  | cons p rest ih =>
    intro used hnd h
    obtain ⟨j, e⟩ := p
    simp only [List.map_cons, List.nodup_cons] at hnd
    obtain ⟨hj, hnd'⟩ := hnd
    simp only [capWalk]
    split_ifs with ha hfit
    · -- kept: `used + e.duration ≤ budget`
      have hD : j ∉ capWalk budget (used + e.duration) rest := fun hm => hj (capWalk_subset hm)
      have hhead : (e.auto_applied ∧ j ∉ capWalk budget (used + e.duration) rest) := ⟨ha, hD⟩
      simp only [keptSum, List.map_cons, List.sum_cons, if_pos hhead]
      have := ih hnd' hfit
      simp only [keptSum] at this
      linarith
    · -- demoted: position `j` is recorded, the head contributes nothing
      have hhead : ¬ (e.auto_applied ∧ j ∉ j :: capWalk budget used rest) := by
        simp
      simp only [keptSum, List.map_cons, List.sum_cons, if_neg hhead]
      have hshift : keptSum (j :: capWalk budget used rest) rest =
          keptSum (capWalk budget used rest) rest := keptSum_cons_not_mem hj
      simp only [keptSum] at hshift
      rw [hshift]
      have := ih hnd' h
      simp only [keptSum] at this
      linarith
    · -- not auto-applied: untouched, contributes nothing
      have hhead : ¬ (e.auto_applied ∧ j ∉ capWalk budget used rest) := by
        simp [ha]
      simp only [keptSum, List.map_cons, List.sum_cons, if_neg hhead]
      have := ih hnd' h
      simp only [keptSum] at this
      linarith

lemma autoSum_eq_map_sum (l : List Edit) :
    autoSum l = (l.map (fun e => if e.auto_applied then e.duration else 0)).sum := by
  induction l with
  | nil => rfl
  | cons e rest ih =>
    by_cases ha : e.auto_applied
    · simp [autoSum, List.filter_cons, ha, List.sum_cons] at ih ⊢
      exact ih
    · simp [autoSum, List.filter_cons, ha, List.sum_cons] at ih ⊢
      exact ih

/-- Rebuilding the original-order list from the demoted positions and
summing the auto-applied durations is the same as `keptSum`. -/
lemma autoSum_demote_eq_keptSum (cuts : List Edit) (D : List Nat) :
    autoSum (cuts.enum.map (fun p => if p.1 ∈ D then demoteEdit p.2 else p.2)) =
      keptSum D cuts.enum := by
  rw [autoSum_eq_map_sum, keptSum, List.map_map]
  congr 1
  apply List.map_congr_left
  intro p _
  by_cases hm : p.1 ∈ D
  · simp [hm, demoteEdit]
  · by_cases ha : p.2.auto_applied
    · simp [hm, ha]
    · simp [hm, ha]

lemma keptSum_perm (D : List Nat) {l1 l2 : List (Nat × Edit)} (h : l1.Perm l2) :
    keptSum D l1 = keptSum D l2 :=
  (h.map _).sum_eq

/-- C1: for every edit set and every episode duration `d > 0`, after the
auto-cut capping step of `EditingModule.run`, the total duration of the
edits with `auto_applied = true` is at most `0.5 * d`. -/
theorem capAutoCuts_budget (d : Rat) (cuts : List Edit) (hd : 0 < d) :
    autoSum (capAutoCuts d cuts) ≤ d / 2 := by
  have hhalf : d * (1/2) = d / 2 := by ring
  by_cases h : 0 < d ∧ 1/2 < autoSum cuts / d
  · have hcap : capAutoCuts d cuts =
        cuts.enum.map (fun p =>
          if p.1 ∈ capWalk (d * (1/2)) 0 (sortByConfDesc cuts.enum) then demoteEdit p.2
          else p.2) := by
      simp only [capAutoCuts, if_pos h]
    rw [hcap, autoSum_demote_eq_keptSum]
    have hperm : (sortByConfDesc cuts.enum).Perm cuts.enum :=
      List.perm_insertionSort _ _
    rw [keptSum_perm _ hperm.symm]
    have hnodup : ((sortByConfDesc cuts.enum).map Prod.fst).Nodup :=
      ((hperm.map Prod.fst).nodup_iff).mpr (List.nodup_enum_map_fst _)
    have h0 : (0:Rat) ≤ d * (1/2) := by linarith
    have hkey := @keptSum_capWalk (d * (1/2)) (sortByConfDesc cuts.enum) 0 hnodup h0
    linarith
  · have hcap : capAutoCuts d cuts = cuts := by
      simp only [capAutoCuts, if_neg h]
    rw [hcap]
    push_neg at h
    have hle := h hd
    rw [div_le_iff₀ hd] at hle
    linarith

/-- The three auto-applied cut proposals used by the C1/C2 witnesses and
the C2 counterexample: durations 8, 5 and 2; confidences 0.9, 0.8 and
0.7; episode duration 20 (budget 10). -/
def exCut1 : Edit :=
  { id := "c1", type := "cut", source_start := 0, source_end := 8,
    confidence := some (mkRat 9 10), auto_applied := true }

/-- Second example cut (duration 5, confidence 0.8). -/
def exCut2 : Edit :=
  { id := "c2", type := "cut", source_start := 10, source_end := 15,
    confidence := some (mkRat 8 10), auto_applied := true }

/-- Third example cut (duration 2, confidence 0.7). -/
def exCut3 : Edit :=
  { id := "c3", type := "cut", source_start := 20, source_end := 22,
    confidence := some (mkRat 7 10), auto_applied := true }

/-- The example cut set (auto-applied sum 15 on a 20-second episode). -/
def exCuts : List Edit := [exCut1, exCut2, exCut3]

/-- Witness for C1 at the concrete input: episode duration 20, auto-applied
cuts summing to 15; after capping the auto-applied sum is at most 10. -/
theorem capAutoCuts_budget_witness :
    (0:Rat) < 20 ∧ autoSum (capAutoCuts 20 exCuts) ≤ 20 / 2 :=
  ⟨by norm_num, capAutoCuts_budget 20 exCuts (by norm_num)⟩

/-- The capping loop on an appended list: the second half starts from the
accumulator reached after the first half. -/
lemma capWalk_append {budget : Rat} :
    ∀ (l1 l2 : List (Nat × Edit)) (used : Rat),
      capWalk budget used (l1 ++ l2) =
        capWalk budget used l1 ++ capWalk budget (usedAfter budget used l1) l2 := by
  intro l1
  induction l1 with
  | nil => intro l2 used; simp [capWalk, usedAfter]
  | cons p rest ih =>
    intro l2 used
    obtain ⟨j, e⟩ := p
    simp only [List.cons_append, capWalk, usedAfter]
    split_ifs with ha hfit
    · exact ih l2 (used + e.duration)
    · exact congrArg (fun t => j :: t) (ih l2 used)
    · exact ih l2 used

/-- C2 (amended): the capping step is a greedy walk in descending order of
confidence (`None` counting as `0`, ties in original order): writing the
sorted, position-tagged edit list as `L1 ++ (i, e) :: L2`, the edit at
original position `i` survives as `auto_applied = true` exactly when it was
auto-applied and its duration still fits the `d * 0.5` budget after the
higher-priority kept edits (`usedAfter` over `L1`); otherwise an
auto-applied edit is demoted (`auto_applied = false` with a non-null
`review_flag`), and an edit that was never auto-applied is returned
untouched.  The kept set is therefore not necessarily a confidence-prefix
of the sorted order. -/
theorem capAutoCuts_greedy (d : Rat) (cuts : List Edit) (hd : 0 < d)
    (htrig : 1/2 < autoSum cuts / d)
    (L1 L2 : List (Nat × Edit)) (i : Nat) (e : Edit)
    (hsplit : sortByConfDesc cuts.enum = L1 ++ (i, e) :: L2) :
    (capAutoCuts d cuts)[i]? =
      some (if e.auto_applied then
              (if usedAfter (d * (1/2)) 0 L1 + e.duration ≤ d * (1/2) then e
               else demoteEdit e)
            else e) := by
  have hcond : 0 < d ∧ 1/2 < autoSum cuts / d := ⟨hd, htrig⟩
  have hcap : capAutoCuts d cuts =
      cuts.enum.map (fun p =>
        if p.1 ∈ capWalk (d * (1/2)) 0 (sortByConfDesc cuts.enum) then demoteEdit p.2
        else p.2) := by
    simp only [capAutoCuts, if_pos hcond]
  have hperm : (sortByConfDesc cuts.enum).Perm cuts.enum :=
    List.perm_insertionSort _ _
  have hnodup : ((sortByConfDesc cuts.enum).map Prod.fst).Nodup :=
    ((hperm.map Prod.fst).nodup_iff).mpr (List.nodup_enum_map_fst _)
  -- `i` occurs exactly once among the tagged positions
  have hnd' : ((L1 ++ (i, e) :: L2).map Prod.fst).Nodup := by rwa [hsplit] at hnodup
  rw [List.map_append, List.map_cons] at hnd'
  have hiL1 : i ∉ L1.map Prod.fst := by
    intro hmem
    rcases List.nodup_append.mp hnd' with ⟨_, _, hdisj⟩
    exact hdisj hmem (List.mem_cons_self _ _)
  have hiL2 : i ∉ L2.map Prod.fst := by
    rcases List.nodup_append.mp hnd' with ⟨_, hnd2, _⟩
    exact (List.nodup_cons.mp hnd2).1
  -- the element at position `i` of the original list is `e`
  have hmem : (i, e) ∈ cuts.enum :=
    hperm.subset (by rw [hsplit]; exact List.mem_append_right _ (List.mem_cons_self _ _))
  have hget : cuts[i]? = some e := List.mk_mem_enum_iff_getElem?.mp hmem
  -- membership of `i` in the demoted positions, via the split
  have hD : capWalk (d * (1/2)) 0 (sortByConfDesc cuts.enum) =
      capWalk (d * (1/2)) 0 L1 ++
        capWalk (d * (1/2)) (usedAfter (d * (1/2)) 0 L1) ((i, e) :: L2) := by
    rw [hsplit, capWalk_append]
  have hmemD : i ∈ capWalk (d * (1/2)) 0 (sortByConfDesc cuts.enum) ↔
      (e.auto_applied = true ∧
        ¬ (usedAfter (d * (1/2)) 0 L1 + e.duration ≤ d * (1/2))) := by
    rw [hD, List.mem_append]
    constructor
    · intro h
      rcases h with h | h
      · exact absurd (capWalk_subset h) hiL1
      · simp only [capWalk] at h
        split_ifs at h with ha hfit
        · exact absurd (capWalk_subset h) hiL2
        · exact ⟨ha, hfit⟩
        · exact absurd (capWalk_subset h) hiL2
    · intro ⟨ha, hfit⟩
      right
      simp only [capWalk, if_pos ha, if_neg hfit]
      exact List.mem_cons_self _ _
  rw [hcap, List.getElem?_map, List.getElem?_enum, hget]
  simp only [Option.map_some']
  by_cases ha : e.auto_applied = true
  · by_cases hfit : usedAfter (d * (1/2)) 0 L1 + e.duration ≤ d * (1/2)
    · have hni : i ∉ capWalk (d * (1/2)) 0 (sortByConfDesc cuts.enum) := by
        rw [hmemD]; intro hcontra; exact hcontra.2 hfit
      rw [if_neg hni, if_pos ha, if_pos hfit]
    · have hyi : i ∈ capWalk (d * (1/2)) 0 (sortByConfDesc cuts.enum) := by
        rw [hmemD]; exact ⟨ha, hfit⟩
      rw [if_pos hyi, if_pos ha, if_neg hfit]
  · have hni : i ∉ capWalk (d * (1/2)) 0 (sortByConfDesc cuts.enum) := by
      rw [hmemD]; intro hcontra; exact ha hcontra.1
    rw [if_neg hni, if_neg ha]

/-- Modelled from the SPEC's words (§4.4, quoted by claim C2), for
comparison with the source-derived `capAutoCuts`: walk the auto-applied
edits in ascending order of confidence and demote them, lowest first,
until the remaining auto-applied sum is within the budget. -/
def specDemote (budget : Rat) : Rat → List (Nat × Edit) → List Nat
  | _, [] => []
  | remaining, (i, e) :: rest =>
    if budget < remaining then i :: specDemote budget (remaining - e.duration) rest
    else []

/-- Modelled from the SPEC's words (§4.4, quoted by claim C2): the
capping rule with demotion in ascending order of confidence. -/
def specCapAutoCuts (total_duration : Rat) (all_cuts : List Edit) : List Edit :=
  let budget := total_duration * (1/2)
  if 0 < total_duration ∧ budget < autoSum all_cuts then
    let asc := List.insertionSort (fun a b => confKey a.2 ≤ confKey b.2)
      ((all_cuts.enum).filter (fun p => p.2.auto_applied))
    let demoted := specDemote budget (autoSum all_cuts) asc
    all_cuts.enum.map (fun p => if p.1 ∈ demoted then demoteEdit p.2 else p.2)
  else all_cuts

/-- Counterexample to C2 as stated: on a 20-second episode (budget 10)
with auto-applied cuts of durations 8, 5, 2 and confidences 0.9, 0.8, 0.7
(auto-applied sum 15), the code demotes only the 0.8-confidence edit and
keeps the 0.7-confidence one, so demotion is not "in ascending order of
confidence until the remaining sum fits" and the surviving auto-applied
set (durations 8 and 2) is not the maximal highest-confidence prefix
(which would be duration 8 alone, as the spec-worded rule produces). -/
theorem capAutoCuts_claim_cex :
    (capAutoCuts 20 exCuts).map Edit.auto_applied = [true, false, true] ∧
    (specCapAutoCuts 20 exCuts).map Edit.auto_applied = [true, false, false] ∧
    capAutoCuts 20 exCuts ≠ specCapAutoCuts 20 exCuts ∧
    confKey exCut3 < confKey exCut2 := by
  have hcode : capAutoCuts 20 exCuts = [exCut1, demoteEdit exCut2, exCut3] := by
    norm_num [capAutoCuts, autoSum, sortByConfDesc, confKey, capWalk, demoteEdit, exCuts,
      exCut1, exCut2, exCut3, Edit.duration, List.insertionSort, List.orderedInsert,
      List.enum, List.enumFrom, List.filter]
  have hspec : specCapAutoCuts 20 exCuts = [exCut1, demoteEdit exCut2, demoteEdit exCut3] := by
    norm_num [specCapAutoCuts, autoSum, specDemote, confKey, demoteEdit, exCuts,
      exCut1, exCut2, exCut3, Edit.duration, List.insertionSort, List.orderedInsert,
      List.enum, List.enumFrom, List.filter]
  refine ⟨?_, ?_, ?_, ?_⟩
  · rw [hcode]; decide
  · rw [hspec]; decide
  · rw [hcode, hspec]; decide
  · decide

/-- Witness for the amended C2 theorem at the counterexample input: the
sorted order is `exCut1, exCut2, exCut3`; after keeping `exCut1`
(duration 8), `exCut2` (duration 5) no longer fits the budget 10 and is
returned demoted with a non-null `review_flag`. -/
theorem capAutoCuts_greedy_witness :
    (0:Rat) < 20 ∧ 1/2 < autoSum exCuts / 20 ∧
    sortByConfDesc exCuts.enum = [(0, exCut1)] ++ (1, exCut2) :: [(2, exCut3)] ∧
    (capAutoCuts 20 exCuts)[1]? =
      some (if exCut2.auto_applied then
              (if usedAfter (20 * (1/2)) 0 [(0, exCut1)] + exCut2.duration ≤ 20 * (1/2)
               then exCut2
               else demoteEdit exCut2)
            else exCut2) := by
  have h1 : (0:Rat) < 20 := by decide
  have h2 : 1/2 < autoSum exCuts / 20 := by
    norm_num [autoSum, exCuts, exCut1, exCut2, exCut3, Edit.duration, List.filter]
  have h3 : sortByConfDesc exCuts.enum = [(0, exCut1)] ++ (1, exCut2) :: [(2, exCut3)] := by
    simp only [sortByConfDesc, exCuts, List.insertionSort, List.orderedInsert, List.enum,
      List.enumFrom, confKey, exCut1, exCut2, exCut3]
    decide
  exact ⟨h1, h2, h3, capAutoCuts_greedy 20 exCuts h1 h2 [(0, exCut1)] [(2, exCut3)] 1 exCut2 h3⟩

/-! ### Timeline builder invariants (claims C3 and C4) -/

/-- The record-time tiling invariant maintained by the keep-building loop
of `build_edl`: the accumulated keep edits chain contiguously, the first
one starts at record time 0, the last one ends at the current `record_pos`,
`record_pos` is the sum of the keep durations, and every accumulated edit
has `type = "keep"`. -/
def KeepInv (st : BuildState) : Prop :=
  List.Chain' (fun a b : Edit => b.record_start = a.record_end) st.keeps ∧
  (∀ k, st.keeps.head? = some k → k.record_start = some 0) ∧
  (∀ k, st.keeps.getLast? = some k → k.record_end = some st.record_pos) ∧
  (st.keeps = [] → st.record_pos = 0) ∧
  st.record_pos = (st.keeps.map Edit.duration).sum ∧
  (∀ k ∈ st.keeps, k.type = "keep")

/-- Appending one keep edit that starts at the current `record_pos` and
spans its own duration preserves the tiling invariant. -/
lemma KeepInv_push {st : BuildState} (hinv : KeepInv st) (k : Edit) (kc : Nat) (pos : Rat)
    (hs : k.record_start = some st.record_pos)
    (he : k.record_end = some (st.record_pos + k.duration))
    (ht : k.type = "keep") :
    KeepInv ⟨st.keeps ++ [k], kc, pos, st.record_pos + k.duration⟩ := by
  obtain ⟨hchain, hhead, hlast, hnil, hsum, htype⟩ := hinv
  refine ⟨?_, ?_, ?_, ?_, ?_, ?_⟩
  · rw [List.chain'_append]
    refine ⟨hchain, List.chain'_singleton k, ?_⟩
    intro x hx y hy
    simp only [List.head?_cons, Option.mem_def, Option.some.injEq] at hy
    subst hy
    rw [Option.mem_def] at hx
    rw [hs, ← hlast x hx]
  · intro k0 hk0
    cases hks : st.keeps with
    | nil =>
      rw [hks] at hk0
      simp only [List.nil_append, List.head?_cons, Option.some.injEq] at hk0
      subst hk0
      rw [hs, hnil hks]
    | cons a l =>
      rw [hks] at hk0
      simp only [List.cons_append, List.head?_cons, Option.some.injEq] at hk0
      subst hk0
      exact hhead a (by rw [hks]; rfl)
  · intro k0 hk0
    rw [List.getLast?_concat] at hk0
    cases hk0
    exact he
  · intro habs
    exact absurd habs (by simp)
  · simp only [List.map_append, List.sum_append, List.map_cons, List.map_nil,
      List.sum_cons, List.sum_nil]
    rw [hsum]
    ring
  · intro k0 hk0
    rcases List.mem_append.mp hk0 with h | h
    · exact htype k0 h
    · rw [List.mem_singleton.mp h]
      exact ht

/-- Source `buildStep` preserves the tiling invariant. -/
lemma KeepInv_buildStep (segments : List Segment) (st : BuildState) (cut : Edit)
    (hinv : KeepInv st) : KeepInv (buildStep segments st cut) := by
  unfold buildStep
  split_ifs with h
  · exact KeepInv_push hinv _ _ _ rfl rfl rfl
  · exact hinv

/-- Source `buildTail` preserves the tiling invariant. -/
lemma KeepInv_buildTail (segments : List Segment) (total_duration : Rat) (st : BuildState)
    (hinv : KeepInv st) : KeepInv (buildTail segments total_duration st) := by
  unfold buildTail
  split_ifs with h
  · exact KeepInv_push hinv _ _ _ rfl rfl rfl
  · exact hinv

/-- The whole keep-building loop preserves the tiling invariant. -/
lemma KeepInv_foldl (segments : List Segment) :
    ∀ (cuts : List Edit) (st : BuildState), KeepInv st →
      KeepInv (cuts.foldl (buildStep segments) st) := by
  intro cuts
  induction cuts with
  | nil => intro st h; exact h
  | cons c cs ih =>
    intro st h
    exact ih _ (KeepInv_buildStep segments st c h)

/-- The tiling invariant holds at the loop's initial state. -/
lemma KeepInv_init : KeepInv ⟨[], 0, 0, 0⟩ := by
  refine ⟨List.chain'_nil, ?_, ?_, fun _ => rfl, by simp, ?_⟩
  · intro k hk; simp at hk
  · intro k hk; simp at hk
  · intro k hk; simp at hk

/-- Source/record cursor arithmetic of the keep-building loop: when the
cuts are chained (consecutive cuts do not overlap) and the cursor starts at
or before the first cut, the record cursor advances by exactly the source
distance travelled minus the durations of the processed cuts, and the
source cursor ends at the last cut's `source_end`. -/
lemma foldl_buildStep_arith (segments : List Segment) :
    ∀ (cuts : List Edit) (st : BuildState),
      List.Chain' (fun a b : Edit => a.source_end ≤ b.source_start) cuts →
      (∀ c, cuts.head? = some c → st.current_pos ≤ c.source_start) →
      ((cuts.foldl (buildStep segments) st).record_pos
          = st.record_pos + ((cuts.foldl (buildStep segments) st).current_pos
              - st.current_pos) - (cuts.map Edit.duration).sum) ∧
      (cuts = [] → (cuts.foldl (buildStep segments) st).current_pos = st.current_pos) ∧
      (∀ c, cuts.getLast? = some c →
        (cuts.foldl (buildStep segments) st).current_pos = c.source_end) := by
  intro cuts
  induction cuts with
  | nil =>
    intro st _ _
    refine ⟨by simp, fun _ => rfl, ?_⟩
    intro c hc; simp at hc
  | cons c cs ih =>
    intro st hchain hhead
    have hpre : st.current_pos ≤ c.source_start := hhead c rfl
    have hcur : (buildStep segments st c).current_pos = c.source_end := by
      unfold buildStep; split_ifs <;> rfl
    have hrec : (buildStep segments st c).record_pos
        = st.record_pos + (c.source_start - st.current_pos) := by
      unfold buildStep
      split_ifs with hlt
      · rfl
      · have heq : c.source_start = st.current_pos := le_antisymm (not_lt.mp hlt) hpre
        rw [heq]
        ring
    have hchain' : List.Chain' (fun a b : Edit => a.source_end ≤ b.source_start) cs :=
      hchain.tail
    have hhead' : ∀ c', cs.head? = some c' →
        (buildStep segments st c).current_pos ≤ c'.source_start := by
      intro c' hc'
      rw [hcur]
      exact (List.chain'_cons'.mp hchain).1 c' hc'
    obtain ⟨ih1, ih2, ih3⟩ := ih (buildStep segments st c) hchain' hhead'
    have hfold : (c :: cs).foldl (buildStep segments) st
        = cs.foldl (buildStep segments) (buildStep segments st c) := rfl
    refine ⟨?_, ?_, ?_⟩
    · rw [hfold, ih1, hrec, hcur]
      simp only [List.map_cons, List.sum_cons, Edit.duration]
      ring
    · intro habs; exact absurd habs (by simp)
    · intro cl hcl
      rw [hfold]
      cases hcs : cs with
      | nil =>
        rw [hcs] at hcl
        simp only [List.getLast?_singleton, Option.some.injEq] at hcl
        subst hcl
        simpa using hcur
      | cons c2 cs2 =>
        have : cs.getLast? = some cl := by
          rw [hcs]
          rw [hcs] at hcl
          simpa using hcl
        rw [← hcs]
        exact ih3 cl this

/-- C3: for every cut set that is sorted by `source_start`, chained
(consecutive cuts do not overlap) and contained in `[0, total duration]`,
with every cut typed `"cut"`, the keep edits produced by `build_edl` tile
the record timeline contiguously from 0 — the first keep has
`record_start = 0` and each subsequent keep starts where the previous one
ends — and `edited_duration_seconds` equals both the sum of the keep
durations and the original duration minus the sum of the cut durations,
with `time_removed_seconds = original - edited`. -/
theorem buildEdl_tiling (segments : List Segment) (cut_edits : List Edit)
    (episode_id : String) (frame_rate : Int) (crossfade_duration_ms : Int)
    (htot : 0 ≤ totalDurationOf segments)
    (hsorted : List.Pairwise (fun a b : Edit => a.source_start ≤ b.source_start) cut_edits)
    (hchain : List.Chain' (fun a b : Edit => a.source_end ≤ b.source_start) cut_edits)
    (hbounds : ∀ c ∈ cut_edits, 0 ≤ c.source_start ∧ c.source_start ≤ c.source_end ∧
        c.source_end ≤ totalDurationOf segments)
    (htype : ∀ c ∈ cut_edits, c.type = "cut") :
    (∀ k, (buildEdl segments cut_edits episode_id frame_rate crossfade_duration_ms).keep_edits.head?
        = some k → k.record_start = some 0) ∧
    List.Chain' (fun a b : Edit => b.record_start = a.record_end)
      (buildEdl segments cut_edits episode_id frame_rate crossfade_duration_ms).keep_edits ∧
    (buildEdl segments cut_edits episode_id frame_rate crossfade_duration_ms).edited_duration_seconds
      = (((buildEdl segments cut_edits episode_id frame_rate
            crossfade_duration_ms).keep_edits).map Edit.duration).sum ∧
    (buildEdl segments cut_edits episode_id frame_rate crossfade_duration_ms).edited_duration_seconds
      = (buildEdl segments cut_edits episode_id frame_rate
          crossfade_duration_ms).original_duration_seconds
        - (cut_edits.map Edit.duration).sum ∧
    (buildEdl segments cut_edits episode_id frame_rate crossfade_duration_ms).time_removed_seconds
      = (buildEdl segments cut_edits episode_id frame_rate
          crossfade_duration_ms).original_duration_seconds
        - (buildEdl segments cut_edits episode_id frame_rate
            crossfade_duration_ms).edited_duration_seconds := by
  have hsort : List.insertionSort (fun a b : Edit => a.source_start ≤ b.source_start) cut_edits
      = cut_edits := List.Sorted.insertionSort_eq hsorted
  have hKI : KeepInv (buildTail segments (totalDurationOf segments)
      (cut_edits.foldl (buildStep segments) ⟨[], 0, 0, 0⟩)) :=
    KeepInv_buildTail _ _ _ (KeepInv_foldl segments cut_edits _ KeepInv_init)
  have hS : buildEdl segments cut_edits episode_id frame_rate crossfade_duration_ms =
      { episode_id := episode_id
        original_duration_seconds := totalDurationOf segments
        edited_duration_seconds := (buildTail segments (totalDurationOf segments)
          (cut_edits.foldl (buildStep segments) ⟨[], 0, 0, 0⟩)).record_pos
        time_removed_seconds := totalDurationOf segments
          - (buildTail segments (totalDurationOf segments)
              (cut_edits.foldl (buildStep segments) ⟨[], 0, 0, 0⟩)).record_pos
        time_removed_percent := round1 (if 0 < totalDurationOf segments then
          (totalDurationOf segments - (buildTail segments (totalDurationOf segments)
            (cut_edits.foldl (buildStep segments) ⟨[], 0, 0, 0⟩)).record_pos)
              / totalDurationOf segments * 100 else 0)
        edl_frame_rate := frame_rate
        edits := (buildTail segments (totalDurationOf segments)
          (cut_edits.foldl (buildStep segments) ⟨[], 0, 0, 0⟩)).keeps ++ cut_edits
        transitions := buildTransitions crossfade_duration_ms
          (buildTail segments (totalDurationOf segments)
            (cut_edits.foldl (buildStep segments) ⟨[], 0, 0, 0⟩)).keeps } := by
    simp only [buildEdl, hsort]
  have hkeeps : (buildEdl segments cut_edits episode_id frame_rate
      crossfade_duration_ms).keep_edits =
      (buildTail segments (totalDurationOf segments)
        (cut_edits.foldl (buildStep segments) ⟨[], 0, 0, 0⟩)).keeps := by
    rw [hS]
    simp only [EDLSidecar.keep_edits, List.filter_append]
    have h1 : (buildTail segments (totalDurationOf segments)
        (cut_edits.foldl (buildStep segments) ⟨[], 0, 0, 0⟩)).keeps.filter
          (fun e => e.type == "keep") =
        (buildTail segments (totalDurationOf segments)
          (cut_edits.foldl (buildStep segments) ⟨[], 0, 0, 0⟩)).keeps := by
      apply List.filter_eq_self.mpr
      intro k hk
      rw [hKI.2.2.2.2.2 k hk]
      rfl
    have h2 : cut_edits.filter (fun e => e.type == "keep") = [] := by
      apply List.filter_eq_nil_iff.mpr
      intro c hc
      rw [htype c hc]
      decide
    rw [h1, h2, List.append_nil]
  have hpre0 : ∀ c, cut_edits.head? = some c → (0:Rat) ≤ c.source_start := by
    intro c hc
    have hmem : c ∈ cut_edits := List.mem_of_mem_head? (Option.mem_def.mpr hc)
    exact (hbounds c hmem).1
  obtain ⟨ha1, ha2, ha3⟩ :=
    foldl_buildStep_arith segments cut_edits ⟨[], 0, 0, 0⟩ hchain hpre0
  -- the source cursor ends at or before the total duration
  have hcurle : (cut_edits.foldl (buildStep segments) ⟨[], 0, 0, 0⟩).current_pos
      ≤ totalDurationOf segments := by
    cases hl : cut_edits.getLast? with
    | none =>
      have hnil : cut_edits = [] := List.getLast?_eq_none_iff.mp hl
      rw [hnil]
      exact htot
    | some cl =>
      rw [ha3 cl hl]
      exact (hbounds cl (List.mem_of_getLast?_eq_some hl)).2.2
  -- arithmetic identity: the record cursor of the final state
  have hrec : (buildTail segments (totalDurationOf segments)
      (cut_edits.foldl (buildStep segments) ⟨[], 0, 0, 0⟩)).record_pos
      = totalDurationOf segments - (cut_edits.map Edit.duration).sum := by
    unfold buildTail
    split_ifs with hlt
    · simp only []
      rw [ha1]
      simp only []
      ring
    · have hcureq : (cut_edits.foldl (buildStep segments) ⟨[], 0, 0, 0⟩).current_pos
          = totalDurationOf segments := le_antisymm hcurle (not_lt.mp hlt)
      rw [ha1, hcureq]
      simp only []
      ring
  refine ⟨?_, ?_, ?_, ?_, ?_⟩
  · intro k hk
    rw [hkeeps] at hk
    exact hKI.2.1 k hk
  · rw [hkeeps]
    exact hKI.1
  · rw [hkeeps, hS]
    exact hKI.2.2.2.2.1
  · rw [hS]
    exact hrec
  · rw [hS]

/-- The spec's own scenario, used as the C3 witness input: one transcript
segment spanning `[0, 1800]`. -/
def witSeg : Segment := { id := "s1", speaker := "host", start := 0, stop := 1800 }

/-- Cut `[300, 400]` (100 s). -/
def witCutA : Edit := { id := "a", type := "cut", source_start := 300, source_end := 400 }

/-- Cut `[700, 900]` (200 s). -/
def witCutB : Edit := { id := "b", type := "cut", source_start := 700, source_end := 900 }

/-- Cut `[1200, 1250]` (50 s). -/
def witCutC : Edit := { id := "c", type := "cut", source_start := 1200, source_end := 1250 }

/-- The three-cut set of the spec's scenario. -/
def witCuts : List Edit := [witCutA, witCutB, witCutC]

/-- Witness for C3 at the spec's own scenario (1800-second episode, three
sorted non-overlapping cuts of 100/200/50 seconds). -/
theorem buildEdl_tiling_witness :
    (0 ≤ totalDurationOf [witSeg]) ∧
    List.Pairwise (fun a b : Edit => a.source_start ≤ b.source_start) witCuts ∧
    List.Chain' (fun a b : Edit => a.source_end ≤ b.source_start) witCuts ∧
    (∀ c ∈ witCuts, 0 ≤ c.source_start ∧ c.source_start ≤ c.source_end ∧
        c.source_end ≤ totalDurationOf [witSeg]) ∧
    (∀ c ∈ witCuts, c.type = "cut") ∧
    ((∀ k, (buildEdl [witSeg] witCuts "" 30 50).keep_edits.head? = some k →
        k.record_start = some 0) ∧
     List.Chain' (fun a b : Edit => b.record_start = a.record_end)
       (buildEdl [witSeg] witCuts "" 30 50).keep_edits ∧
     (buildEdl [witSeg] witCuts "" 30 50).edited_duration_seconds
       = (((buildEdl [witSeg] witCuts "" 30 50).keep_edits).map Edit.duration).sum ∧
     (buildEdl [witSeg] witCuts "" 30 50).edited_duration_seconds
       = (buildEdl [witSeg] witCuts "" 30 50).original_duration_seconds
         - (witCuts.map Edit.duration).sum ∧
     (buildEdl [witSeg] witCuts "" 30 50).time_removed_seconds
       = (buildEdl [witSeg] witCuts "" 30 50).original_duration_seconds
         - (buildEdl [witSeg] witCuts "" 30 50).edited_duration_seconds) :=
  ⟨by decide, by decide,
   by simp only [witCuts, List.chain'_cons, List.chain'_singleton, and_true]; decide,
   by decide, by decide,
   buildEdl_tiling [witSeg] witCuts "" 30 50 (by decide) (by decide)
     (by simp only [witCuts, List.chain'_cons, List.chain'_singleton, and_true]; decide)
     (by decide) (by decide)⟩

/-- C4 (the code evaluated at the failing input): with zero cuts,
`build_edl` produces exactly one keep edit, spanning the whole episode,
whose `transition` is `"crossfade"` — not `"cut"` as the claim states: the
tail keep edit built at edl_builder.py line 84 carries the literal
`"crossfade"` even when it is the first keep edit. -/
theorem buildEdl_zero_cuts_transition :
    ((buildEdl [witSeg] [] "" 30 50).keep_edits.map (fun e => e.transition))
      = ["crossfade"] ∧
    ((buildEdl [witSeg] [] "" 30 50).keep_edits.map
        (fun e => (e.source_start, e.source_end))) = [(0, 1800)] := by
  constructor <;> decide

/-! ### Gate controller (claims C6 and C7) -/

/-- The only ways to split `STAGE_ORDER` as `done ++ s :: l'`. -/
lemma stage_split_cases (done : List Stage) (s : Stage) (l' : List Stage)
    (h : STAGE_ORDER = done ++ s :: l') :
    (done = [] ∧ s = .ingestion ∧ l' = [.editing, .mixing, .mastering]) ∨
    (done = [.ingestion] ∧ s = .editing ∧ l' = [.mixing, .mastering]) ∨
    (done = [.ingestion, .editing] ∧ s = .mixing ∧ l' = [.mastering]) ∨
    (done = [.ingestion, .editing, .mixing] ∧ s = .mastering ∧ l' = []) := by
  match done with
  | [] =>
    left
    simp only [List.nil_append, STAGE_ORDER] at h
    obtain ⟨h1, h2⟩ := List.cons.inj h
    exact ⟨rfl, h1.symm, h2.symm⟩
  | [a] =>
    right; left
    simp only [List.cons_append, List.nil_append, STAGE_ORDER] at h
    obtain ⟨h1, h⟩ := List.cons.inj h
    obtain ⟨h2, h3⟩ := List.cons.inj h
    subst h1
    exact ⟨rfl, h2.symm, h3.symm⟩
  | [a, b] =>
    right; right; left
    simp only [List.cons_append, List.nil_append, STAGE_ORDER] at h
    obtain ⟨h1, h⟩ := List.cons.inj h
    obtain ⟨h2, h⟩ := List.cons.inj h
    obtain ⟨h3, h4⟩ := List.cons.inj h
    subst h1; subst h2
    exact ⟨rfl, h3.symm, h4.symm⟩
  | [a, b, c] =>
    right; right; right
    simp only [List.cons_append, List.nil_append, STAGE_ORDER] at h
    obtain ⟨h1, h⟩ := List.cons.inj h
    obtain ⟨h2, h⟩ := List.cons.inj h
    obtain ⟨h3, h⟩ := List.cons.inj h
    obtain ⟨h4, h5⟩ := List.cons.inj h
    subst h1; subst h2; subst h3
    exact ⟨rfl, h4.symm, h5.symm⟩
  | a :: b :: c :: d :: rest =>
    exfalso
    have hlen := congrArg List.length h
    simp [STAGE_ORDER] at hlen

/-- A stage strictly earlier (in fixed order) than the split point lies in
the processed part. -/
lemma stage_split_mem {done : List Stage} {s : Stage} {l' : List Stage} {s' : Stage}
    (h : STAGE_ORDER = done ++ s :: l') (hlt : stageIdx s' < stageIdx s) : s' ∈ done := by
  rcases stage_split_cases done s l' h with ⟨h1, h2, _⟩ | ⟨h1, h2, _⟩ | ⟨h1, h2, _⟩ | ⟨h1, h2, _⟩ <;>
    subst h1 <;> subst h2 <;> cases s' <;> simp_all [stageIdx]

/-- A stage in the unprocessed tail is strictly later than the split
point. -/
lemma stage_split_lt {done : List Stage} {s : Stage} {l' : List Stage} {sf : Stage}
    (h : STAGE_ORDER = done ++ s :: l') (hm : sf ∈ l') : stageIdx s < stageIdx sf := by
  rcases stage_split_cases done s l' h with ⟨h1, h2, h3⟩ | ⟨h1, h2, h3⟩ | ⟨h1, h2, h3⟩ | ⟨h1, h2, h3⟩ <;>
    subst h2 <;> subst h3 <;> cases sf <;> simp_all [stageIdx]

/-- Source `findPendingGate` returns a qualifying stage and no earlier stage
qualifies. -/
lemma findPendingGate_first {m : Manifest} {s : Stage}
    (h : findPendingGate m = some s) :
    gateQualifies m s = true ∧
    ∀ s', stageIdx s' < stageIdx s → gateQualifies m s' = false := by
  unfold findPendingGate at h
  rw [List.find?_eq_some] at h
  obtain ⟨hq, done, l', hsplit, hfail⟩ := h
  refine ⟨hq, ?_⟩
  intro s' hlt
  have hmem : s' ∈ done := stage_split_mem hsplit hlt
  have := hfail s' hmem
  simpa using this

/-- All four stages are in `STAGE_ORDER`. -/
lemma mem_STAGE_ORDER (s : Stage) : s ∈ STAGE_ORDER := by
  cases s <;> simp [STAGE_ORDER]

/-- C6 (amended): `approve_gate` approves the first stage (in fixed order)
with `status = completed` and `gate_approved = null`: it sets
`gate_approved = true`, stamps the approval time, records non-empty notes,
leaves the other fields and all other stages untouched, and sets
`current_stage` to the next stage name — `"complete"` when the approved
stage is `mastering`.  It fails with `NoGatePending` exactly when no stage
qualifies (leaving the persisted manifest unchanged, since nothing is
written back), and a second consecutive call fails provided the approved
stage was the only qualifying one — with two stages simultaneously
awaiting review, the second call approves the next pending gate instead of
failing. -/
theorem approveGate_spec (m : Manifest) (notes : Option String) (t : Nat) :
    (∀ s, findPendingGate m = some s →
      (match approveGate m notes t with
       | .ok m' =>
          (m'.stages s).status = (m.stages s).status ∧
          (m'.stages s).gate_approved = some true ∧
          (m'.stages s).gate_approved_at = some t ∧
          (m'.stages s).gate_notes = applyNotes ((m.stages s).gate_notes) notes ∧
          (m'.stages s).started_at = (m.stages s).started_at ∧
          (m'.stages s).completed_at = (m.stages s).completed_at ∧
          (∀ s', s' ≠ s → m'.stages s' = m.stages s') ∧
          m'.current_stage = nextStageName s ∧
          (s = .mastering → m'.current_stage = "complete")
       | .error _ => False)) ∧
    (approveGate m notes t = .error .noGatePending ↔ findPendingGate m = none) ∧
    (∀ s, findPendingGate m = some s →
      gateQualifies m s = true ∧
      ∀ s', stageIdx s' < stageIdx s → gateQualifies m s' = false) ∧
    (∀ s m', findPendingGate m = some s → approveGate m notes t = .ok m' →
      (∀ s', s' ≠ s → gateQualifies m s' = false) →
      approveGate m' notes t = .error .noGatePending) := by
  refine ⟨?_, ?_, ?_, ?_⟩
  · intro s hfind
    simp only [approveGate, hfind]
    refine ⟨?_, ?_, ?_, ?_, ?_, ?_, ?_, ?_, ?_⟩
    · simp [Manifest.setStage, Manifest.setCurrent]
    · simp [Manifest.setStage, Manifest.setCurrent]
    · simp [Manifest.setStage, Manifest.setCurrent]
    · simp [Manifest.setStage, Manifest.setCurrent]
    · simp [Manifest.setStage, Manifest.setCurrent]
    · simp [Manifest.setStage, Manifest.setCurrent]
    · intro s' hne
      simp [Manifest.setStage, Manifest.setCurrent, hne]
    · simp [Manifest.setStage, Manifest.setCurrent]
    · intro hs
      subst hs
      simp [Manifest.setStage, Manifest.setCurrent, nextStageName]
  · cases hfind : findPendingGate m with
    | some s => simp [approveGate, hfind]
    | none => simp [approveGate, hfind]
  · intro s hfind
    exact findPendingGate_first hfind
  · intro s m' hfind hok honly
    have hq := (findPendingGate_first hfind).1
    simp only [approveGate, hfind] at hok
    have hm' : m' = (m.setStage s
        { m.stages s with gate_approved := some true
                          gate_approved_at := some t
                          gate_notes := applyNotes ((m.stages s).gate_notes) notes
        }).setCurrent (nextStageName s) := by
      cases hok
      rfl
    have hnone : findPendingGate m' = none := by
      unfold findPendingGate
      apply List.find?_eq_none.mpr
      intro s' _
      by_cases hne : s' = s
      · subst hne
        simp [gateQualifies, hm', Manifest.setStage, Manifest.setCurrent]
      · have : gateQualifies m s' = false := honly s' hne
        simp only [gateQualifies, hm', Manifest.setStage, Manifest.setCurrent] at this ⊢
        simp only [if_neg hne]
        simpa using this
    simp [approveGate, hnone]

/-- C7: `reject_gate` resets the first stage (in fixed order) with
`status = completed` and `gate_approved = null` to `pending`, clears
`started_at`, `completed_at` and `gate_approved`, records non-empty notes,
sets `current_stage` back to that stage's name, leaves all other stages
untouched, and fails with `NoGatePending` exactly when no stage qualifies
(leaving the persisted manifest unchanged, since nothing is written
back). -/
theorem rejectGate_spec (m : Manifest) (notes : Option String) :
    (∀ s, findPendingGate m = some s →
      (match rejectGate m notes with
       | .ok m' =>
          (m'.stages s).status = .pending ∧
          (m'.stages s).started_at = none ∧
          (m'.stages s).completed_at = none ∧
          (m'.stages s).gate_approved = none ∧
          (m'.stages s).gate_notes = applyNotes ((m.stages s).gate_notes) notes ∧
          (∀ s', s' ≠ s → m'.stages s' = m.stages s') ∧
          m'.current_stage = s.name
       | .error _ => False)) ∧
    (rejectGate m notes = .error .noGatePending ↔ findPendingGate m = none) ∧
    (∀ s, findPendingGate m = some s →
      gateQualifies m s = true ∧
      ∀ s', stageIdx s' < stageIdx s → gateQualifies m s' = false) := by
  refine ⟨?_, ?_, ?_⟩
  · intro s hfind
    simp only [rejectGate, hfind]
    refine ⟨?_, ?_, ?_, ?_, ?_, ?_, ?_⟩
    · simp [Manifest.setStage, Manifest.setCurrent]
    · simp [Manifest.setStage, Manifest.setCurrent]
    · simp [Manifest.setStage, Manifest.setCurrent]
    · simp [Manifest.setStage, Manifest.setCurrent]
    · simp [Manifest.setStage, Manifest.setCurrent]
    · intro s' hne
      simp [Manifest.setStage, Manifest.setCurrent, hne]
    · simp [Manifest.setStage, Manifest.setCurrent]
  · cases hfind : findPendingGate m with
    | some s => simp [rejectGate, hfind]
    | none => simp [rejectGate, hfind]
  · intro s hfind
    exact findPendingGate_first hfind

/-- A manifest whose `editing` stage is completed and awaiting its gate
(used by the C6/C7 witnesses). -/
def witManifest : Manifest :=
  { current_stage := "editing"
    stages := fun s =>
      match s with
      | .ingestion => { status := .completed, gate_approved := some true }
      | .editing => { status := .completed, started_at := some 1, completed_at := some 5 }
      | _ => {} }

/-- A manifest with two stages simultaneously completed and awaiting their
gates (`ingestion` and `mixing`), as arises from a `run_pipeline`
invocation with `from_stage="mixing"` whose gate is declined while the
ingestion gate is still pending. -/
def cexManifest2 : Manifest :=
  { current_stage := "ingestion"
    stages := fun s =>
      match s with
      | .ingestion => { status := .completed }
      | .mixing => { status := .completed }
      | _ => {} }

/-- Counterexample to C6 as stated: with `ingestion` and `mixing` both
completed and unapproved, two consecutive `approve_gate` calls with no
intervening completed stage both succeed — the second call approves the
mixing gate instead of failing with `NoGatePending`. -/
theorem approveGate_second_call_cex :
    (approveGate cexManifest2 none 0).isOk = true ∧
    ((approveGate cexManifest2 none 0).toOption.map
        (fun m1 => (approveGate m1 none 1).isOk)) = some true := by
  constructor <;> decide

/-- Witness for the amended C6 theorem: approving the pending `editing`
gate of `witManifest` sets `gate_approved = true`, stamps time 7, records
the notes, leaves other stages untouched and advances `current_stage` to
`"mixing"`. -/
theorem approveGate_spec_witness :
    findPendingGate witManifest = some .editing ∧
    (match approveGate witManifest (some "ok") 7 with
     | .ok m' =>
        (m'.stages .editing).status = (witManifest.stages .editing).status ∧
        (m'.stages .editing).gate_approved = some true ∧
        (m'.stages .editing).gate_approved_at = some 7 ∧
        (m'.stages .editing).gate_notes =
          applyNotes ((witManifest.stages .editing).gate_notes) (some "ok") ∧
        (m'.stages .editing).started_at = (witManifest.stages .editing).started_at ∧
        (m'.stages .editing).completed_at = (witManifest.stages .editing).completed_at ∧
        (∀ s', s' ≠ .editing → m'.stages s' = witManifest.stages s') ∧
        m'.current_stage = nextStageName .editing ∧
        (Stage.editing = .mastering → m'.current_stage = "complete")
     | .error _ => False) :=
  ⟨by decide, (approveGate_spec witManifest (some "ok") 7).1 .editing (by decide)⟩

/-- Witness for C7: rejecting the pending `editing` gate of `witManifest`
(the spec's `notes="too aggressive"` scenario) resets it to `pending`,
clears the timestamps and `gate_approved`, records the notes and moves
`current_stage` back to `"editing"`. -/
theorem rejectGate_spec_witness :
    findPendingGate witManifest = some .editing ∧
    (match rejectGate witManifest (some "too aggressive") with
     | .ok m' =>
        (m'.stages .editing).status = .pending ∧
        (m'.stages .editing).started_at = none ∧
        (m'.stages .editing).completed_at = none ∧
        (m'.stages .editing).gate_approved = none ∧
        (m'.stages .editing).gate_notes =
          applyNotes ((witManifest.stages .editing).gate_notes) (some "too aggressive") ∧
        (∀ s', s' ≠ .editing → m'.stages s' = witManifest.stages s') ∧
        m'.current_stage = Stage.editing.name
     | .error _ => False) :=
  ⟨by decide, (rejectGate_spec witManifest (some "too aggressive")).1 .editing (by decide)⟩

/-! ### Region mapper (claim C10) -/

/-- C10: a keep edit whose (possibly `None`) speaker is absent from the
speaker → track-path table produces an `AudioRegion` with an empty
`track_path` and alignment offset `0` rather than an error, and region
extraction silently skips every region with an empty `track_path`: when
all non-empty track paths exist, extraction succeeds and its keys are
exactly the `edit_id`s of the regions with a non-empty `track_path` — an
empty-track region contributes no entry and triggers no failure. -/
theorem missingSpeaker_region_skipped (edl : EDLSidecar) (alignment : AlignmentMap)
    (track_map : List (String × String)) :
    (∀ r ∈ buildTimeline edl alignment track_map,
      lookupTrack track_map r.speaker = none → r.track_path = "" ∧ r.offset_ms = 0) ∧
    (∀ (exists_fn : String → Bool) (regions : List AudioRegion),
      (∀ r ∈ regions, r.track_path ≠ "" → exists_fn r.track_path = true) →
      (extractRegions exists_fn regions).map (fun l => l.map Prod.fst)
        = .ok ((regions.filter (fun r => !(r.track_path == ""))).map AudioRegion.edit_id)) := by
  constructor
  · intro r hr hnone
    have hperm : (buildTimeline edl alignment track_map).Perm
        (edl.keep_edits.map (fun e =>
          let speaker := (e.speaker).getD ""
          let track_path := (lookupTrack track_map speaker).getD ""
          let offset_ms :=
            if track_path ≠ "" then alignment.get_track_offset track_path else 0
          { edit_id := e.id
            track_path := track_path
            source_start := e.source_start
            source_end := e.source_end
            record_start := (e.record_start).getD 0
            record_end := (e.record_end).getD 0
            speaker := speaker
            offset_ms := offset_ms : AudioRegion })) := by
      unfold buildTimeline
      exact List.perm_insertionSort _ _
    have hmem := hperm.subset hr
    obtain ⟨e, _, he⟩ := List.mem_map.mp hmem
    have hsp : r.speaker = (e.speaker).getD "" := by rw [← he]
    rw [hsp] at hnone
    have hpath : r.track_path = "" := by
      rw [← he]
      simp only []
      rw [hnone]
      rfl
    refine ⟨hpath, ?_⟩
    rw [← he] at hpath ⊢
    simp only [] at hpath ⊢
    rw [if_neg (by simpa using hpath)]
  · intro exists_fn regions
    induction regions with
    | nil => intro _; rfl
    | cons r rest ih =>
      intro hall
      by_cases hempty : r.track_path = ""
      · have h1 : extractRegions exists_fn (r :: rest) = extractRegions exists_fn rest := by
          simp only [extractRegions, if_pos hempty]
        have h2 : (r :: rest).filter (fun r => !(r.track_path == "")) =
            rest.filter (fun r => !(r.track_path == "")) := by
          simp [List.filter_cons, hempty]
        rw [h1, h2]
        exact ih (fun r' hr' => hall r' (List.mem_cons_of_mem _ hr'))
      · have hex : exists_fn r.track_path = true := hall r (List.mem_cons_self _ _) hempty
        have hrec := ih (fun r' hr' => hall r' (List.mem_cons_of_mem _ hr'))
        cases hr : extractRegions exists_fn rest with
        | error p =>
          rw [hr] at hrec
          simp [Except.map] at hrec
        | ok out =>
          rw [hr] at hrec
          simp only [Except.map] at hrec
          have hkeys : out.map Prod.fst =
              (rest.filter (fun r => !(r.track_path == ""))).map AudioRegion.edit_id := by
            simpa using hrec
          have h1 : extractRegions exists_fn (r :: rest) =
              .ok ((r.edit_id,
                { track_path := r.track_path
                  start := max (r.source_start + r.offset_ms / 1000) 0
                  duration := r.duration : ExtractCall }) :: out) := by
            simp only [extractRegions, if_neg hempty, hex, hr]
            rfl
          have h2 : (r :: rest).filter (fun r => !(r.track_path == "")) =
              r :: rest.filter (fun r => !(r.track_path == "")) := by
            simp [List.filter_cons, hempty]
          rw [h1, h2]
          simp only [Except.map, List.map_cons]
          rw [hkeys]

/-- A keep edit whose speaker `"bob"` has no entry in the track table
(C10 witness input). -/
def witKeep : Edit :=
  { id := "k1", type := "keep", source_start := 0, source_end := 10,
    record_start := some 0, record_end := some 10, speaker := some "bob" }

/-- An EDL containing only `witKeep`. -/
def witEdl : EDLSidecar := { edits := [witKeep] }

/-- The region `build_timeline` produces for `witKeep` with an empty track
table: empty `track_path`, offset `0`. -/
def witRegion : AudioRegion :=
  { edit_id := "k1", track_path := "", source_start := 0, source_end := 10,
    record_start := 0, record_end := 10, speaker := "bob", offset_ms := 0 }

/-- Witness for C10: with an empty speaker → track table, the keep edit's
region has an empty `track_path` and offset `0`, and extraction (under a
file-existence oracle that finds nothing) succeeds with no entries and no
error. -/
theorem missingSpeaker_region_skipped_witness :
    (witRegion ∈ buildTimeline witEdl { tracks := [] } []) ∧
    (lookupTrack [] witRegion.speaker = none) ∧
    (witRegion.track_path = "" ∧ witRegion.offset_ms = 0) ∧
    (∀ r ∈ [witRegion], r.track_path ≠ "" → (fun _ => false) r.track_path = true) ∧
    ((extractRegions (fun _ => false) [witRegion]).map (fun l => l.map Prod.fst)
      = .ok (([witRegion].filter (fun r => !(r.track_path == ""))).map
          AudioRegion.edit_id)) :=
  ⟨by decide, by decide,
   (missingSpeaker_region_skipped witEdl { tracks := [] } []).1 witRegion
     (by decide) (by decide),
   by decide,
   (missingSpeaker_region_skipped witEdl { tracks := [] } []).2
     (fun _ => false) [witRegion] (by decide)⟩

/-! ### Pipeline orchestrator (claims C5 and C9) -/

/-- Every stage strictly before `s` in the fixed order has
`gate_approved = true` in manifest `m`. -/
def earlierApproved (s : Stage) (m : Manifest) : Prop :=
  ∀ s' ∈ STAGE_ORDER, stageIdx s' < stageIdx s → (m.stages s').gate_approved = some true

instance (s : Stage) (m : Manifest) : Decidable (earlierApproved s m) :=
  List.decidableBAll _ _

/-- An event respects the gate order: a stage may be marked `in_progress`
only while every earlier stage's gate is approved. -/
def eventOK : Event → Prop
  | .persist _ => True
  | .markInProgress s m => earlierApproved s m

instance : DecidablePred eventOK := fun e =>
  match e with
  | .persist _ => isTrue trivial
  | .markInProgress s m => (inferInstance : Decidable (earlierApproved s m))

/-- The split point never lies in the processed part. -/
lemma stage_split_not_mem {done : List Stage} {s : Stage} {l' : List Stage}
    (h : STAGE_ORDER = done ++ s :: l') : s ∉ done := by
  rcases stage_split_cases done s l' h with ⟨h1, h2, _⟩ | ⟨h1, h2, _⟩ | ⟨h1, h2, _⟩ | ⟨h1, h2, _⟩ <;>
    subst h1 <;> subst h2 <;> simp

/-- Stages other than the updated one are untouched by `setStage`. -/
lemma setStage_stages_other {m : Manifest} {s s' : Stage} {st : StageStatus}
    (hne : s' ≠ s) : (m.setStage s st).stages s' = m.stages s' := by
  simp [Manifest.setStage, hne]

/-- Source `setCurrent` does not touch the stages. -/
lemma setCurrent_stages (m : Manifest) (c : String) (s' : Stage) :
    (m.setCurrent c).stages s' = m.stages s' := rfl

/-- Approving a stage's gate sets its `gate_approved` to `true`. -/
lemma approveStageManifest_gate_self (m : Manifest) (s : Stage) (clock : Nat) :
    ((approveStageManifest m s clock).stages s).gate_approved = some true := by
  simp [approveStageManifest, Manifest.setStage, Manifest.setCurrent]

/-- Approving a stage's gate leaves other stages untouched. -/
lemma approveStageManifest_stages_other (m : Manifest) (s : Stage) (clock : Nat)
    {s' : Stage} (hne : s' ≠ s) :
    (approveStageManifest m s clock).stages s' = m.stages s' := by
  simp [approveStageManifest, Manifest.setStage, Manifest.setCurrent, hne]

/-- Marking a stage `in_progress` leaves other stages untouched. -/
lemma markInProgressManifest_stages_other (m : Manifest) (s : Stage) (clock : Nat)
    {s' : Stage} (hne : s' ≠ s) :
    (markInProgressManifest m s clock).stages s' = m.stages s' := by
  simp [markInProgressManifest, Manifest.setStage, Manifest.setCurrent, hne]

/-- Completing a stage leaves other stages untouched. -/
lemma completeManifest_stages_other (m2 : Manifest) (s : Stage) (clock : Nat)
    {s' : Stage} (hne : s' ≠ s) :
    (completeManifest m2 s clock).stages s' = m2.stages s' := by
  simp [completeManifest, Manifest.setStage, hne]

/-- The stage loop of `run_pipeline` never marks a stage `in_progress`
while an earlier stage's gate is unapproved, provided the stages processed
so far are all approved and the stage modules do not alter any
`gate_approved` field. -/
lemma runStages_no_premature (env : StageEnv)
    (hrun : ∀ s m' s', (((env.runStage s m').1).stages s').gate_approved
      = (m'.stages s').gate_approved) :
    ∀ (l done : List Stage) (m : Manifest) (clock : Nat),
      STAGE_ORDER = done ++ l →
      (∀ s' ∈ done, (m.stages s').gate_approved = some true) →
      ∀ e ∈ (runStages env l m clock).trace, eventOK e := by
  intro l
  induction l with
  | nil =>
    intro done m clock _ _ e he
    simp [runStages] at he
  | cons s rest ih =>
    intro done m clock hsplit hdone e he
    have hnotmem : s ∉ done := stage_split_not_mem hsplit
    have hsplit' : STAGE_ORDER = (done ++ [s]) ++ rest := by
      rw [hsplit, List.append_assoc]
      rfl
    have hearly : ∀ m0 : Manifest,
        (∀ s' ∈ done, (m0.stages s').gate_approved = some true) → earlierApproved s m0 := by
      intro m0 h0 s' _ hlt
      exact h0 s' (stage_split_mem hsplit hlt)
    by_cases hskip : (m.stages s).status = .completed ∧ (m.stages s).gate_approved = some true
    · have hrw : runStages env (s :: rest) m clock = runStages env rest m clock := by
        simp only [runStages, if_pos hskip]
      rw [hrw] at he
      refine ih (done ++ [s]) m clock hsplit' ?_ e he
      intro s' hs'
      rcases List.mem_append.mp hs' with h | h
      · exact hdone s' h
      · rw [List.mem_singleton.mp h]
        exact hskip.2
    · by_cases hgate : (m.stages s).status = .completed ∧ (m.stages s).gate_approved = none
      · by_cases happr : env.presentGate s m = true
        · have hrw : runStages env (s :: rest) m clock =
              { runStages env rest (approveStageManifest m s clock) (clock + 1) with
                trace := Event.persist (approveStageManifest m s clock)
                  :: (runStages env rest (approveStageManifest m s clock) (clock + 1)).trace } := by
            simp only [runStages, if_neg hskip, if_pos hgate, happr, if_pos]
          rw [hrw] at he
          simp only [List.mem_cons] at he
          rcases he with he | he
          · subst he; trivial
          · refine ih (done ++ [s]) _ (clock + 1) hsplit' ?_ e he
            intro s' hs'
            rcases List.mem_append.mp hs' with h | h
            · have hne : s' ≠ s := fun hc => hnotmem (hc ▸ h)
              rw [approveStageManifest_stages_other m s clock hne]
              exact hdone s' h
            · rw [List.mem_singleton.mp h]
              exact approveStageManifest_gate_self m s clock
        · have happr' : env.presentGate s m = false := by
            cases hpg : env.presentGate s m
            · rfl
            · exact absurd hpg happr
          have hrw : runStages env (s :: rest) m clock =
              ⟨.gatePaused s, m, [Event.persist m], clock⟩ := by
            simp only [runStages, if_neg hskip, if_pos hgate, happr']
            rfl
          rw [hrw] at he
          simp only [List.mem_singleton] at he
          subst he
          trivial
      · by_cases hval : env.validate s m ≠ []
        · have hrw : runStages env (s :: rest) m clock =
              ⟨.validationFailed s (env.validate s m), m, [], clock⟩ := by
            simp only [runStages, if_neg hskip, if_neg hgate, if_pos hval]
          rw [hrw] at he
          simp at he
        · have hgates1 : ∀ s' ∈ done,
              ((markInProgressManifest m s clock).stages s').gate_approved = some true := by
            intro s' h
            have hne : s' ≠ s := fun hc => hnotmem (hc ▸ h)
            rw [markInProgressManifest_stages_other m s clock hne]
            exact hdone s' h
          have hmark : earlierApproved s (markInProgressManifest m s clock) :=
            hearly _ hgates1
          rcases hrs : env.runStage s (markInProgressManifest m s clock) with ⟨m2, oe⟩
          have hgates2 : ∀ s' ∈ done, (m2.stages s').gate_approved = some true := by
            intro s' h
            have := hrun s (markInProgressManifest m s clock) s'
            rw [hrs] at this
            simp only [] at this
            rw [this]
            exact hgates1 s' h
          cases oe with
          | some e' =>
            have hrw : (runStages env (s :: rest) m clock).trace =
                [Event.markInProgress s (markInProgressManifest m s clock),
                 Event.persist (markInProgressManifest m s clock),
                 Event.persist (failManifest m2 s e')] := by
              simp only [runStages, if_neg hskip, if_neg hgate, if_neg hval, hrs]
            rw [hrw] at he
            simp only [List.mem_cons, List.mem_singleton, List.not_mem_nil,
              or_false] at he
            rcases he with he | he | he
            · subst he; exact hmark
            · subst he; trivial
            · subst he; trivial
          | none =>
            by_cases happr2 :
                env.presentGate s (completeManifest m2 s (clock + 1)) = true
            · have hrw : (runStages env (s :: rest) m clock).trace =
                  Event.markInProgress s (markInProgressManifest m s clock)
                    :: Event.persist (markInProgressManifest m s clock)
                    :: Event.persist (completeManifest m2 s (clock + 1))
                    :: Event.persist (approveStageManifest
                        (completeManifest m2 s (clock + 1)) s (clock + 2))
                    :: (runStages env rest (approveStageManifest
                        (completeManifest m2 s (clock + 1)) s (clock + 2))
                        (clock + 3)).trace := by
                simp only [runStages, if_neg hskip, if_neg hgate, if_neg hval, hrs, happr2,
                  if_pos]
              rw [hrw] at he
              simp only [List.mem_cons] at he
              rcases he with he | he | he | he | he
              · subst he; exact hmark
              · subst he; trivial
              · subst he; trivial
              · subst he; trivial
              · refine ih (done ++ [s]) _ (clock + 3) hsplit' ?_ e he
                intro s' hs'
                rcases List.mem_append.mp hs' with h | h
                · have hne : s' ≠ s := fun hc => hnotmem (hc ▸ h)
                  rw [approveStageManifest_stages_other _ s (clock + 2) hne,
                    completeManifest_stages_other m2 s (clock + 1) hne]
                  exact hgates2 s' h
                · rw [List.mem_singleton.mp h]
                  exact approveStageManifest_gate_self _ s (clock + 2)
            · have happr2' :
                  env.presentGate s (completeManifest m2 s (clock + 1)) = false := by
                cases hpg : env.presentGate s (completeManifest m2 s (clock + 1))
                · rfl
                · exact absurd hpg happr2
              have hrw : (runStages env (s :: rest) m clock).trace =
                  [Event.markInProgress s (markInProgressManifest m s clock),
                   Event.persist (markInProgressManifest m s clock),
                   Event.persist (completeManifest m2 s (clock + 1)),
                   Event.persist (completeManifest m2 s (clock + 1))] := by
                simp only [runStages, if_neg hskip, if_neg hgate, if_neg hval, hrs, happr2']
                rfl
              rw [hrw] at he
              simp only [List.mem_cons, List.mem_singleton, List.not_mem_nil,
                or_false] at he
              rcases he with he | he | he | he
              · subst he; exact hmark
              · subst he; trivial
              · subst he; trivial
              · subst he; trivial

/-- C5 (amended): during a `run_pipeline` invocation without `from_stage`,
provided the stage modules do not alter any stage's `gate_approved` field
(the real modules only update their own diagnostics), no stage is marked
`in_progress` while some earlier stage in the fixed order has
`gate_approved ≠ true`.  With `from_stage`, the stages before the
requested one are skipped without any gate check and the property can
fail. -/
theorem runPipeline_no_premature_start (env : StageEnv) (m : Manifest)
    (hrun : ∀ s m' s', (((env.runStage s m').1).stages s').gate_approved
      = (m'.stages s').gate_approved) :
    ∀ e ∈ pipelineTrace env m none, eventOK e := by
  intro e he
  exact runStages_no_premature env hrun STAGE_ORDER [] m 0 rfl (by simp) e he

/-- Stage environment used by the C5/C9 witnesses and the C5
counterexample: inputs always valid, modules succeed without touching the
manifest, gates always approved. -/
def cexEnv : StageEnv :=
  { validate := fun _ _ => []
    runStage := fun _ m' => (m', none)
    presentGate := fun _ _ => true }

/-- A fresh manifest: all four stages pending, nothing approved. -/
def cexPendingManifest : Manifest :=
  { current_stage := "ingestion", stages := fun _ => {} }

/-- Counterexample to C5 as stated: a `run_pipeline` invocation with
`from_stage="editing"` on a fresh manifest (ingestion still pending, its
gate not approved) marks `editing` `in_progress` although the earlier
`ingestion` stage has `gate_approved ≠ true`. -/
theorem runPipeline_from_stage_cex :
    ¬ (∀ e ∈ pipelineTrace cexEnv cexPendingManifest (some "editing"), eventOK e) := by
  decide

/-- Witness for the amended C5 theorem: the same environment without
`from_stage` satisfies the invariant (the module hypothesis holds by
construction). -/
theorem runPipeline_no_premature_start_witness :
    (∀ s m' s', (((cexEnv.runStage s m').1).stages s').gate_approved
      = (m'.stages s').gate_approved) ∧
    (∀ e ∈ pipelineTrace cexEnv cexPendingManifest none, eventOK e) :=
  ⟨fun _ _ _ => rfl,
   runPipeline_no_premature_start cexEnv cexPendingManifest (fun _ _ _ => rfl)⟩

/-- A raised stage always belongs to the remaining stage list. -/
lemma runStages_raised_mem (env : StageEnv) :
    ∀ (l : List Stage) (m : Manifest) (clock : Nat) (s : Stage) (e : PyError),
      (runStages env l m clock).result = .stageRaised s e → s ∈ l := by
  intro l
  induction l with
  | nil =>
    intro m clock s e hres
    simp [runStages] at hres
  | cons s0 rest ih =>
    intro m clock s e hres
    by_cases hskip : (m.stages s0).status = .completed ∧ (m.stages s0).gate_approved = some true
    · rw [show runStages env (s0 :: rest) m clock = runStages env rest m clock by
        simp only [runStages, if_pos hskip]] at hres
      exact List.mem_cons_of_mem _ (ih m clock s e hres)
    · by_cases hgate : (m.stages s0).status = .completed ∧ (m.stages s0).gate_approved = none
      · by_cases happr : env.presentGate s0 m = true
        · have hrw : runStages env (s0 :: rest) m clock =
              { runStages env rest (approveStageManifest m s0 clock) (clock + 1) with
                trace := Event.persist (approveStageManifest m s0 clock)
                  :: (runStages env rest (approveStageManifest m s0 clock) (clock + 1)).trace } := by
            simp only [runStages, if_neg hskip, if_pos hgate, happr, if_pos]
          rw [hrw] at hres
          exact List.mem_cons_of_mem _ (ih _ _ s e hres)
        · have happr' : env.presentGate s0 m = false := by
            cases hpg : env.presentGate s0 m
            · rfl
            · exact absurd hpg happr
          rw [show runStages env (s0 :: rest) m clock =
              ⟨.gatePaused s0, m, [Event.persist m], clock⟩ by
            simp only [runStages, if_neg hskip, if_pos hgate, happr']; rfl] at hres
          simp at hres
      · by_cases hval : env.validate s0 m ≠ []
        · rw [show runStages env (s0 :: rest) m clock =
              ⟨.validationFailed s0 (env.validate s0 m), m, [], clock⟩ by
            simp only [runStages, if_neg hskip, if_neg hgate, if_pos hval]] at hres
          simp at hres
        · rcases hrs : env.runStage s0 (markInProgressManifest m s0 clock) with ⟨m2, oe⟩
          cases oe with
          | some e' =>
            have hrw : (runStages env (s0 :: rest) m clock).result = .stageRaised s0 e' := by
              simp only [runStages, if_neg hskip, if_neg hgate, if_neg hval, hrs]
            rw [hrw] at hres
            cases hres
            exact List.mem_cons_self _ _
          | none =>
            by_cases happr2 :
                env.presentGate s0 (completeManifest m2 s0 (clock + 1)) = true
            · have hrw : (runStages env (s0 :: rest) m clock).result =
                  (runStages env rest (approveStageManifest
                    (completeManifest m2 s0 (clock + 1)) s0 (clock + 2)) (clock + 3)).result := by
                simp only [runStages, if_neg hskip, if_neg hgate, if_neg hval, hrs, happr2,
                  if_pos]
              rw [hrw] at hres
              exact List.mem_cons_of_mem _ (ih _ _ s e hres)
            · have happr2' :
                  env.presentGate s0 (completeManifest m2 s0 (clock + 1)) = false := by
                cases hpg : env.presentGate s0 (completeManifest m2 s0 (clock + 1))
                · rfl
                · exact absurd hpg happr2
              have hrw : (runStages env (s0 :: rest) m clock).result = .gatePaused s0 := by
                simp only [runStages, if_neg hskip, if_neg hgate, if_neg hval, hrs, happr2']
                rfl
              rw [hrw] at hres
              cases hres

/-- A cons cell does not change a non-empty list's last element. -/
lemma getLast?_cons_eq {α : Type} (a : α) {l : List α} {x : α}
    (h : l.getLast? = some x) : (a :: l).getLast? = some x := by
  cases l with
  | nil => simp at h
  | cons b bs =>
    rw [List.getLast?_cons_cons]
    exact h

/-- Failure handling of the stage loop: when a stage module raises, the
final manifest records the failure on that stage (type name, message
truncated to 500 characters, and the stage's last diagnostic checkpoint),
the failure manifest is the last event persisted before re-raising, and no
stage later than the failing one is ever marked `in_progress`. -/
lemma runStages_raised_spec (env : StageEnv) :
    ∀ (l done : List Stage) (m : Manifest) (clock : Nat) (s : Stage) (e : PyError),
      STAGE_ORDER = done ++ l →
      (runStages env l m clock).result = .stageRaised s e →
      ((runStages env l m clock).manifest.stages s).status = .failed ∧
      ((runStages env l m clock).manifest.stages s).error =
        some { type := e.type
               message := e.message.take 500
               step := ((runStages env l m clock).manifest.stages s).last_completed_step } ∧
      (runStages env l m clock).trace.getLast? =
        some (.persist (runStages env l m clock).manifest) ∧
      (∀ ev ∈ (runStages env l m clock).trace, ∀ s'' m'',
        ev = Event.markInProgress s'' m'' → stageIdx s'' ≤ stageIdx s) := by
  intro l
  induction l with
  | nil =>
    intro done m clock s e _ hres
    simp [runStages] at hres
  | cons s0 rest ih =>
    intro done m clock s e hsplit hres
    have hsplit' : STAGE_ORDER = (done ++ [s0]) ++ rest := by
      rw [hsplit, List.append_assoc]
      rfl
    by_cases hskip : (m.stages s0).status = .completed ∧ (m.stages s0).gate_approved = some true
    · have hrw : runStages env (s0 :: rest) m clock = runStages env rest m clock := by
        simp only [runStages, if_pos hskip]
      rw [hrw] at hres ⊢
      exact ih (done ++ [s0]) m clock s e hsplit' hres
    · by_cases hgate : (m.stages s0).status = .completed ∧ (m.stages s0).gate_approved = none
      · by_cases happr : env.presentGate s0 m = true
        · have hrw : runStages env (s0 :: rest) m clock =
              { runStages env rest (approveStageManifest m s0 clock) (clock + 1) with
                trace := Event.persist (approveStageManifest m s0 clock)
                  :: (runStages env rest (approveStageManifest m s0 clock) (clock + 1)).trace } := by
            simp only [runStages, if_neg hskip, if_pos hgate, happr, if_pos]
          rw [hrw] at hres ⊢
          simp only [] at hres ⊢
          obtain ⟨ih1, ih2, ih3, ih4⟩ := ih (done ++ [s0]) _ (clock + 1) s e hsplit' hres
          refine ⟨ih1, ih2, ?_, ?_⟩
          · exact getLast?_cons_eq _ ih3
          · intro ev hev s'' m'' heq
            simp only [List.mem_cons] at hev
            rcases hev with hev | hev
            · subst hev; cases heq
            · exact ih4 ev hev s'' m'' heq
        · have happr' : env.presentGate s0 m = false := by
            cases hpg : env.presentGate s0 m
            · rfl
            · exact absurd hpg happr
          rw [show runStages env (s0 :: rest) m clock =
              ⟨.gatePaused s0, m, [Event.persist m], clock⟩ by
            simp only [runStages, if_neg hskip, if_pos hgate, happr']; rfl] at hres
          cases hres
      · by_cases hval : env.validate s0 m ≠ []
        · rw [show runStages env (s0 :: rest) m clock =
              ⟨.validationFailed s0 (env.validate s0 m), m, [], clock⟩ by
            simp only [runStages, if_neg hskip, if_neg hgate, if_pos hval]] at hres
          cases hres
        · rcases hrs : env.runStage s0 (markInProgressManifest m s0 clock) with ⟨m2, oe⟩
          cases oe with
          | some e' =>
            have hrw : runStages env (s0 :: rest) m clock =
                ⟨.stageRaised s0 e', failManifest m2 s0 e',
                 [Event.markInProgress s0 (markInProgressManifest m s0 clock),
                  Event.persist (markInProgressManifest m s0 clock),
                  Event.persist (failManifest m2 s0 e')],
                 clock + 1⟩ := by
              simp only [runStages, if_neg hskip, if_neg hgate, if_neg hval, hrs]
            rw [hrw] at hres ⊢
            simp only [] at hres
            cases hres
            refine ⟨?_, ?_, ?_, ?_⟩
            · simp [failManifest, Manifest.setStage]
            · simp [failManifest, Manifest.setStage]
            · rfl
            · intro ev hev s'' m'' heq
              simp only [List.mem_cons, List.not_mem_nil, or_false] at hev
              rcases hev with hev | hev | hev <;> subst hev
              · cases heq
                exact le_refl _
              · cases heq
              · cases heq
          | none =>
            by_cases happr2 :
                env.presentGate s0 (completeManifest m2 s0 (clock + 1)) = true
            · have hrw : runStages env (s0 :: rest) m clock =
                  { runStages env rest (approveStageManifest
                      (completeManifest m2 s0 (clock + 1)) s0 (clock + 2)) (clock + 3) with
                    trace := Event.markInProgress s0 (markInProgressManifest m s0 clock)
                      :: Event.persist (markInProgressManifest m s0 clock)
                      :: Event.persist (completeManifest m2 s0 (clock + 1))
                      :: Event.persist (approveStageManifest
                          (completeManifest m2 s0 (clock + 1)) s0 (clock + 2))
                      :: (runStages env rest (approveStageManifest
                          (completeManifest m2 s0 (clock + 1)) s0 (clock + 2))
                          (clock + 3)).trace } := by
                simp only [runStages, if_neg hskip, if_neg hgate, if_neg hval, hrs, happr2,
                  if_pos]
              rw [hrw] at hres ⊢
              simp only [] at hres ⊢
              have hmem : s ∈ rest := runStages_raised_mem env rest _ _ s e hres
              have hlt : stageIdx s0 < stageIdx s := stage_split_lt hsplit hmem
              obtain ⟨ih1, ih2, ih3, ih4⟩ := ih (done ++ [s0]) _ (clock + 3) s e hsplit' hres
              refine ⟨ih1, ih2, ?_, ?_⟩
              · exact getLast?_cons_eq _ (getLast?_cons_eq _ (getLast?_cons_eq _
                  (getLast?_cons_eq _ ih3)))
              · intro ev hev s'' m'' heq
                simp only [List.mem_cons] at hev
                rcases hev with hev | hev | hev | hev | hev
                · subst hev
                  cases heq
                  exact le_of_lt hlt
                · subst hev; cases heq
                · subst hev; cases heq
                · subst hev; cases heq
                · exact ih4 ev hev s'' m'' heq
            · have happr2' :
                  env.presentGate s0 (completeManifest m2 s0 (clock + 1)) = false := by
                cases hpg : env.presentGate s0 (completeManifest m2 s0 (clock + 1))
                · rfl
                · exact absurd hpg happr2
              rw [show (runStages env (s0 :: rest) m clock).result = .gatePaused s0 by
                simp only [runStages, if_neg hskip, if_neg hgate, if_neg hval, hrs,
                  happr2']
                rfl] at hres
              cases hres

/-- C9: if a stage module's `run` raises, `run_pipeline` (with or without
`from_stage`) marks that stage `failed` with an error record carrying the
exception's type name, its message truncated to 500 characters and the
stage's last diagnostic checkpoint, persists the failure manifest as the
last event before re-raising, re-raises the same exception (the result
carries it to the caller), and marks no stage later than the failing one
`in_progress` in that invocation. -/
theorem runPipeline_failure_handling (env : StageEnv) (m : Manifest)
    (from_stage : Option String) (out : RunOut) (s : Stage) (e : PyError)
    (hout : runPipeline env m from_stage = .ran out)
    (hres : out.result = .stageRaised s e) :
    (out.manifest.stages s).status = .failed ∧
    (out.manifest.stages s).error =
      some { type := e.type
             message := e.message.take 500
             step := (out.manifest.stages s).last_completed_step } ∧
    out.trace.getLast? = some (.persist out.manifest) ∧
    (∀ ev ∈ out.trace, ∀ s'' m'', ev = Event.markInProgress s'' m'' →
      stageIdx s'' ≤ stageIdx s) := by
  cases from_stage with
  | none =>
    simp only [runPipeline] at hout
    cases hout
    exact runStages_raised_spec env STAGE_ORDER [] m 0 s e rfl hres
  | some nm =>
    simp only [runPipeline] at hout
    cases hst : stageOfName nm with
    | none =>
      rw [hst] at hout
      cases hout
    | some s0 =>
      rw [hst] at hout
      cases hout
      exact runStages_raised_spec env (STAGE_ORDER.drop (stageIdx s0))
        (STAGE_ORDER.take (stageIdx s0)) m 0 s e (List.take_append_drop _ _).symm hres

/-- Stage environment whose ingestion module raises
`RuntimeError("boom")`. -/
def cexFailEnv : StageEnv :=
  { validate := fun _ _ => []
    runStage := fun s m' =>
      if s = .ingestion then (m', some { type := "RuntimeError", message := "boom" })
      else (m', none)
    presentGate := fun _ _ => true }

/-- Witness for C9: running the pipeline over a fresh manifest with a
failing ingestion module yields `stageRaised`, with the failure recorded
and persisted and no later stage started. -/
theorem runPipeline_failure_handling_witness :
    (runPipeline cexFailEnv cexPendingManifest none
      = .ran (runStages cexFailEnv STAGE_ORDER cexPendingManifest 0)) ∧
    ((runStages cexFailEnv STAGE_ORDER cexPendingManifest 0).result
      = .stageRaised .ingestion { type := "RuntimeError", message := "boom" }) ∧
    (((runStages cexFailEnv STAGE_ORDER cexPendingManifest 0).manifest.stages
        .ingestion).status = .failed ∧
     ((runStages cexFailEnv STAGE_ORDER cexPendingManifest 0).manifest.stages
        .ingestion).error =
       some { type := "RuntimeError"
              message := String.take "boom" 500
              step := ((runStages cexFailEnv STAGE_ORDER cexPendingManifest 0).manifest.stages
                .ingestion).last_completed_step } ∧
     (runStages cexFailEnv STAGE_ORDER cexPendingManifest 0).trace.getLast? =
       some (.persist (runStages cexFailEnv STAGE_ORDER cexPendingManifest 0).manifest) ∧
     (∀ ev ∈ (runStages cexFailEnv STAGE_ORDER cexPendingManifest 0).trace, ∀ s'' m'',
        ev = Event.markInProgress s'' m'' → stageIdx s'' ≤ stageIdx .ingestion)) :=
  ⟨rfl, by decide,
   runPipeline_failure_handling cexFailEnv cexPendingManifest none
     (runStages cexFailEnv STAGE_ORDER cexPendingManifest 0) .ingestion
     { type := "RuntimeError", message := "boom" } rfl (by decide)⟩

end PodAgent
